import Mathlib

/-!
# mcpkit — registry synchronization and configuration reconciliation core

Shallow embedding of the core logic of `bin/mcp-kit.js` (the first, current
version of the file): JSON config read/modify/write, the agent-config
mutation helpers (`ensureMcpServersInConfig`, `addServerToMcpConfig`,
`removeServerFromMcpConfig`), the registry cache and installation ledger
(`loadMcpRegistry`, `loadMcpRegistrySync`, `saveMcpRegistry`,
`updateMcpInstallationStatus`), the refresh endpoint, and the
install/uninstall endpoints.

Files are modelled at the granularity of their parsed JSON content:
a file state is `none` (missing), `some (.error ())` (exists but is not
parseable JSON), or `some (.ok v)` (parses to the JSON value `v`).
JavaScript objects obtained from `JSON.parse` are modelled as association
lists with unique keys in insertion order; property assignment on an
existing key keeps its position, a new key is appended (JS semantics).
JavaScript truthiness and `typeof` checks are modelled explicitly.
-/

namespace Mcpkit

/-- A parsed JSON value (what `JSON.parse` can return). -/
inductive Jv where
  | jnull
  | jbool (b : Bool)
  | jnum (n : Int)
  | jstr (s : String)
  | jarr (elems : List Jv)
  | jobj (fields : List (String × Jv))
deriving Repr

mutual

def decEqJv : (a b : Jv) → Decidable (a = b)
  | .jnull, .jnull => isTrue rfl
  | .jbool a, .jbool b =>
      match decEq a b with
      | isTrue h => isTrue (by rw [h])
      | isFalse h => isFalse (by intro hh; cases hh; exact h rfl)
  | .jnum a, .jnum b =>
      match decEq a b with
      | isTrue h => isTrue (by rw [h])
      | isFalse h => isFalse (by intro hh; cases hh; exact h rfl)
  | .jstr a, .jstr b =>
      match decEq a b with
      | isTrue h => isTrue (by rw [h])
      | isFalse h => isFalse (by intro hh; cases hh; exact h rfl)
  | .jarr xs, .jarr ys =>
      match decEqJvList xs ys with
      | isTrue h => isTrue (by rw [h])
      | isFalse h => isFalse (by intro hh; cases hh; exact h rfl)
  | .jobj xs, .jobj ys =>
      match decEqJvFields xs ys with
      | isTrue h => isTrue (by rw [h])
      | isFalse h => isFalse (by intro hh; cases hh; exact h rfl)
  | .jnull, .jbool _ => isFalse (by intro h; cases h)
  | .jnull, .jnum _ => isFalse (by intro h; cases h)
  | .jnull, .jstr _ => isFalse (by intro h; cases h)
  | .jnull, .jarr _ => isFalse (by intro h; cases h)
  | .jnull, .jobj _ => isFalse (by intro h; cases h)
  | .jbool _, .jnull => isFalse (by intro h; cases h)
  | .jbool _, .jnum _ => isFalse (by intro h; cases h)
  | .jbool _, .jstr _ => isFalse (by intro h; cases h)
  | .jbool _, .jarr _ => isFalse (by intro h; cases h)
  | .jbool _, .jobj _ => isFalse (by intro h; cases h)
  | .jnum _, .jnull => isFalse (by intro h; cases h)
  | .jnum _, .jbool _ => isFalse (by intro h; cases h)
  | .jnum _, .jstr _ => isFalse (by intro h; cases h)
  | .jnum _, .jarr _ => isFalse (by intro h; cases h)
  | .jnum _, .jobj _ => isFalse (by intro h; cases h)
  | .jstr _, .jnull => isFalse (by intro h; cases h)
  | .jstr _, .jbool _ => isFalse (by intro h; cases h)
  | .jstr _, .jnum _ => isFalse (by intro h; cases h)
  | .jstr _, .jarr _ => isFalse (by intro h; cases h)
  | .jstr _, .jobj _ => isFalse (by intro h; cases h)
  | .jarr _, .jnull => isFalse (by intro h; cases h)
  | .jarr _, .jbool _ => isFalse (by intro h; cases h)
  | .jarr _, .jnum _ => isFalse (by intro h; cases h)
  | .jarr _, .jstr _ => isFalse (by intro h; cases h)
  | .jarr _, .jobj _ => isFalse (by intro h; cases h)
  | .jobj _, .jnull => isFalse (by intro h; cases h)
  | .jobj _, .jbool _ => isFalse (by intro h; cases h)
  | .jobj _, .jnum _ => isFalse (by intro h; cases h)
  | .jobj _, .jstr _ => isFalse (by intro h; cases h)
  | .jobj _, .jarr _ => isFalse (by intro h; cases h)

def decEqJvList : (xs ys : List Jv) → Decidable (xs = ys)
  | [], [] => isTrue rfl
  | [], _ :: _ => isFalse (by intro h; cases h)
  | _ :: _, [] => isFalse (by intro h; cases h)
  | x :: xs, y :: ys =>
      match decEqJv x y, decEqJvList xs ys with
      | isTrue h1, isTrue h2 => isTrue (by rw [h1, h2])
      | isFalse h1, _ => isFalse (by intro hh; cases hh; exact h1 rfl)
      | _, isFalse h2 => isFalse (by intro hh; cases hh; exact h2 rfl)

def decEqJvFields : (xs ys : List (String × Jv)) → Decidable (xs = ys)
  | [], [] => isTrue rfl
  | [], _ :: _ => isFalse (by intro h; cases h)
  | _ :: _, [] => isFalse (by intro h; cases h)
  | (k1, v1) :: xs, (k2, v2) :: ys =>
      match decEq k1 k2, decEqJv v1 v2, decEqJvFields xs ys with
      | isTrue h0, isTrue h1, isTrue h2 => isTrue (by rw [h0, h1, h2])
      | isFalse h0, _, _ => isFalse (by intro hh; cases hh; exact h0 rfl)
      | _, isFalse h1, _ => isFalse (by intro hh; cases hh; exact h1 rfl)
      | _, _, isFalse h2 => isFalse (by intro hh; cases hh; exact h2 rfl)

end

instance : DecidableEq Jv := decEqJv

namespace Jv

/-- JS truthiness of a parsed JSON value. `null`, `false`, `0`, `""` are
falsy; every array and object (including empty ones) is truthy. -/
def truthy : Jv → Bool
  | jnull => false
  | jbool b => b
  | jnum n => n != 0
  | jstr s => s ≠ ""
  | jarr _ => true
  | jobj _ => true

/-- `typeof v === 'object'` for a parsed JSON value: true for `null`,
arrays and objects. -/
def isObjectType : Jv → Bool
  | jnull => true
  | jarr _ => true
  | jobj _ => true
  | _ => false

end Jv

open Jv

/-- First binding of key `k` in an object's field list (parsed JSON objects
have unique keys, so this is the binding). -/
def objGet (fields : List (String × Jv)) (k : String) : Option Jv :=
  match fields with
  | [] => none
  | (k', v) :: rest => if k' = k then some v else objGet rest k

/-- JS property assignment `o[k] = v` on an object: replaces the binding in
place if the key exists, otherwise appends it. -/
def objSet (fields : List (String × Jv)) (k : String) (v : Jv) :
    List (String × Jv) :=
  match fields with
  | [] => [(k, v)]
  | (k', v') :: rest =>
      if k' = k then (k, v) :: rest else (k', v') :: objSet rest k v

/-- JS `delete o[k]`. -/
def objDel (fields : List (String × Jv)) (k : String) : List (String × Jv) :=
  fields.filter (fun p => p.1 ≠ k)

/-- JS property read `v.k`: a lookup on an object; `undefined` (here `none`)
on every other parsed JSON value (named properties of arrays never occur in
parsed JSON, and reads of our keys on primitives yield `undefined`). -/
def jget (v : Jv) (k : String) : Option Jv :=
  match v with
  | jobj fields => objGet fields k
  | _ => none

/-- Truthiness of a possibly-`undefined` value. -/
def otruthy : Option Jv → Bool
  | none => false
  | some v => truthy v

instance : DecidableEq (Except Unit Jv) := fun a b =>
  match a, b with
  | Except.ok x, Except.ok y =>
      match decEqJv x y with
      | isTrue h => isTrue (by rw [h])
      | isFalse h => isFalse (by intro hh; cases hh; exact h rfl)
  | Except.error _, Except.error _ => isTrue (by rfl)
  | Except.ok _, Except.error _ => isFalse (by intro h; cases h)
  | Except.error _, Except.ok _ => isFalse (by intro h; cases h)

/-- The parsed content of one file: missing, unparseable, or a JSON value. -/
abbrev FileState := Option (Except Unit Jv)

/-- `readJson` (mcp-kit.js:415–421): `JSON.parse(readFileSync(file))` with
every failure (missing file, unreadable, parse error) degraded to `{}`. -/
def readJson : FileState → Jv
  | some (Except.ok v) => v
  | _ => jobj []

/-- The agent ids with a dedicated branch in `ensureMcpServersInConfig`
(mcp-kit.js:578–605); every branch performs the identical normalization. -/
def knownAgentIds : List String :=
  ["cursor", "windsurf", "claude-desktop", "continue", "aider", "cline"]

/-- The reset test `!config.mcpServers || typeof config.mcpServers !== 'object'`
on the (possibly `undefined`) `mcpServers` property: parsed-JSON values that
are falsy or not object-typed. Exactly objects and arrays survive:
`null` and `undefined` are falsy, and every other parsed value has a
non-`'object'` `typeof`. -/
def mcpServersNeedsReset : Option Jv → Bool
  | some (jobj _) => false
  | some (jarr _) => false
  | _ => true

/-- `ensureMcpServersInConfig(config, agentId)` (mcp-kit.js:570–615), at the
granularity of the persisted JSON document.

* a falsy or non-object-typed `config` is replaced by `{ mcpServers: {} }`;
* for the known agent ids, `config.mcpServers` is reset to `{}` when falsy
  or not object-typed;
* for any other agent id, the config is returned as-is when `config.mcpServers`
  is truthy, else `mcpServers` is set to `{}`.

A top-level parsed array passes the `typeof config === 'object'` test; the
assignment `config.mcpServers = {}` then creates a named property on the
array, which `JSON.stringify` does not serialize and which no later
string-keyed lookup in this program observes, so at the persisted-JSON
granularity the array is unchanged. -/
def ensureMcpServersInConfig (config : Jv) (agentId : String) : Jv :=
  if !truthy config || !isObjectType config then
    jobj [("mcpServers", jobj [])]
  else
    match config with
    | jobj fields =>
        if agentId ∈ knownAgentIds then
          if mcpServersNeedsReset (objGet fields "mcpServers") then
            jobj (objSet fields "mcpServers" (jobj []))
          else jobj fields
        else
          if otruthy (objGet fields "mcpServers") then jobj fields
          else jobj (objSet fields "mcpServers" (jobj []))
    | other => other

/-- The `{command, args, env}` server entry written by `addServerToMcpConfig`. -/
def serverEntry (command : String) (args : List String) (env : Jv) : Jv :=
  jobj [("command", jstr command), ("args", jarr (args.map jstr)), ("env", env)]

/-- The assignment `config.mcpServers[serverId] = {command, args, env}`
(mcp-kit.js:625–629), at the persisted-JSON granularity. When the normalized
config's `mcpServers` is not an object (a truthy non-object survives the
generic branch of `ensureMcpServersInConfig`, and an array survives every
branch), the assignment either silently no-ops (primitive base) or creates
a property that `JSON.stringify` drops (array base), so the persisted
document is unchanged. -/
def setServerEntry (config : Jv) (serverId : String) (entry : Jv) : Jv :=
  match config with
  | jobj fields =>
      match objGet fields "mcpServers" with
      | some (jobj ms) =>
          jobj (objSet fields "mcpServers" (jobj (objSet ms serverId entry)))
      | _ => jobj fields
  | other => other

/-- Split a character list at every separator character, keeping empty
fields — the semantics of JS `String.prototype.split` with a one-character
string separator (`"".split(' ')` is `[""]`, consecutive separators yield
empty fields). -/
def splitFieldsBy (isSep : Char → Bool) : List Char → List (List Char)
  | [] => [[]]
  | c :: rest =>
      let r := splitFieldsBy isSep rest
      if isSep c then [] :: r
      else (c :: r.headD []) :: r.tail

/-- JS `s.split(' ')`: the space character `U+0020` is the only separator. -/
def jsSplitOnSpace (s : String) : List String :=
  (splitFieldsBy (fun c => c = ' ') s.data).map String.mk

/-- Tokenization on whitespace, as the specification words it ("splits
`commandLine` on whitespace into `command` (first token) and `args`
(remaining tokens)"): the maximal runs of non-whitespace characters. This
definition follows the specification's words, not the source, and exists
only to compare the two splitting behaviours. -/
def whitespaceTokens (s : String) : List String :=
  ((splitFieldsBy Char.isWhitespace s.data).filter (fun cs => cs ≠ [])).map
    String.mk

/-- The new parsed content of the agent config file produced by
`addServerToMcpConfig(mcpConfigPath, serverId, serverCommand, env, agentId)`
(mcp-kit.js:617–632): read the file, normalize, split the command line with
JS `serverCommand.split(' ')`, take the first field as `command` and the
rest as `args`, and store the entry under `serverId`. -/
def addServerConfig (prev : FileState) (serverId serverCommand : String)
    (env : Jv) (agentId : String) : Jv :=
  let config := ensureMcpServersInConfig (readJson prev) agentId
  let parts := jsSplitOnSpace serverCommand
  let command := parts.headD ""
  let args := parts.tail
  setServerEntry config serverId (serverEntry command args env)

/-- `addServerToMcpConfig` as a file transformation: it always ends in
`writeJsonSafe(mcpConfigPath, config)`, so the file afterwards parses to
`addServerConfig` of its previous state. -/
def addServerToMcpConfig (prev : FileState) (serverId serverCommand : String)
    (env : Jv) (agentId : String) : FileState :=
  some (Except.ok (addServerConfig prev serverId serverCommand env agentId))

/-- `removeServerFromMcpConfig(mcpConfigPath, serverId, agentId)`
(mcp-kit.js:634–643): normalize the parsed file; if
`config.mcpServers && config.mcpServers[serverId]` is truthy, delete the
entry, write the config back, and return `true`; otherwise return `false`
without writing (the file keeps its previous state, including an
unparseable one). -/
def removeServerFromMcpConfig (prev : FileState) (serverId agentId : String) :
    FileState × Bool :=
  let config := ensureMcpServersInConfig (readJson prev) agentId
  match config with
  | jobj fields =>
      match objGet fields "mcpServers" with
      | some (jobj ms) =>
          if otruthy (objGet ms serverId) then
            (some (Except.ok
              (jobj (objSet fields "mcpServers" (jobj (objDel ms serverId))))),
             true)
          else (prev, false)
      | _ => (prev, false)
  | _ => (prev, false)

/-! ## Registry cache and installation ledger -/

/-- `loadMcpRegistrySync` (mcp-kit.js:86–101), reduced to the `mcps` list it
yields: the result is always `{ mcps: <this list> }`. A missing file, a parse
failure, a non-object or falsy parse result, and a missing or non-array
`mcps` property all degrade to `[]`. -/
def loadMcpRegistrySync (regFile : FileState) : List Jv :=
  match regFile with
  | some (Except.ok v) =>
      if truthy v && isObjectType v then
        match jget v "mcps" with
        | some (jarr xs) => xs
        | _ => []
      else []
  | _ => []

/-- `saveMcpRegistry` (mcp-kit.js:77–83): overwrite the registry cache file
with the given object, verbatim (no merge with the previous content; a write
failure is swallowed and not modelled). -/
def saveMcpRegistry (v : Jv) : FileState :=
  some (Except.ok v)

/-- The outcome of one `fetchCatalogFromGitHub()` call (mcp-kit.js:536–568):
`Except.error ()` for a network error or unparseable payload (the promise
rejects), `Except.ok v` when the payload parsed to `v`. -/
abbrev FetchResult := Except Unit Jv

/-- The guard `githubRegistry && githubRegistry.mcps` used by
`loadMcpRegistry`, the refresh endpoint and the periodic refresh: the fetch
must have resolved to a truthy value with a truthy `mcps` property. -/
def fetchedCatalog : FetchResult → Option Jv
  | Except.ok v => if truthy v && otruthy (jget v "mcps") then some v else none
  | Except.error _ => none

/-- `loadMcpRegistry` (mcp-kit.js:47–75): if the fetch yielded a catalog,
persist it to the cache file and return it; otherwise fall back to the local
cache file (normalized exactly as in `loadMcpRegistrySync`), leaving the
file untouched. Returns the catalog object and the new cache file state.
Every failure is absorbed; the function always produces a catalog object. -/
def loadMcpRegistry (fetch : FetchResult) (regFile : FileState) :
    Jv × FileState :=
  match fetchedCatalog fetch with
  | some v => (v, saveMcpRegistry v)
  | none => (jobj [("mcps", jarr (loadMcpRegistrySync regFile))], regFile)

/-- The registry cache file after `/api/refresh-registry`
(mcp-kit.js:793–824) — the 30-minute periodic refresh (mcp-kit.js:1052–1063)
performs the identical save. The boolean is the `fromLocal` flag of the
response: `false` when the fetched catalog was saved, `true` when the
endpoint answered from the local registry without writing. -/
def refreshRegistry (fetch : FetchResult) (regFile : FileState) :
    FileState × Bool :=
  match fetchedCatalog fetch with
  | some v => (saveMcpRegistry v, false)
  | none => (regFile, true)

/-- JS `m.id === mcpId` for a record `m` of the `mcps` list: true exactly
when `m` has an `id` property holding that string. -/
def idMatches (m : Jv) (mcpId : String) : Bool :=
  match jget m "id" with
  | some (jstr s) => s = mcpId
  | _ => false

/-- JS `xs.includes(agentId)` on a parsed array with a string argument:
strict equality holds only against that very string. -/
def jsIncludesStr (xs : List Jv) (s : String) : Bool :=
  xs.any (fun e => e = jstr s)

/-- The `installed = true` branch of `updateMcpInstallationStatus`
(mcp-kit.js:107–115) on the found record: default a falsy
`installed_agents` to `[]`, push `agentId` unless already present, and —
only when `installed` is falsy — set `installed = true` and stamp
`installation_date` with the current time. A truthy non-array
`installed_agents` would make the JS `.push` throw; it is modelled as
leaving the record unchanged and is ruled out by the well-formedness
hypotheses of the theorems below. -/
def markInstalledRecord (m : Jv) (agentId : String) (now : String) : Jv :=
  match m with
  | jobj fs =>
      let fs1 := if !otruthy (objGet fs "installed_agents")
                 then objSet fs "installed_agents" (jarr []) else fs
      match objGet fs1 "installed_agents" with
      | some (jarr xs) =>
          let xs1 := if jsIncludesStr xs agentId then xs
                     else xs ++ [jstr agentId]
          let fs2 := objSet fs1 "installed_agents" (jarr xs1)
          let fs3 :=
            if !otruthy (objGet fs2 "installed") then
              objSet (objSet fs2 "installed" (jbool true))
                "installation_date" (jstr now)
            else fs2
          jobj fs3
      | _ => jobj fs1
  | other => other

/-- The `installed = false` branch of `updateMcpInstallationStatus`
(mcp-kit.js:116–123) on the found record: if `installed_agents` is truthy,
filter out `agentId` (JS `id !== agentId` keeps every element that is not
that string), and when the result is empty set `installed = false` and
`installation_date = null`. A falsy `installed_agents` (absent, `null`, …)
skips the whole branch; a truthy non-array would make the JS `.filter`
throw and is modelled as leaving the record unchanged. -/
def markUninstalledRecord (m : Jv) (agentId : String) : Jv :=
  match m with
  | jobj fs =>
      match objGet fs "installed_agents" with
      | some (jarr xs) =>
          let xs1 := xs.filter (fun e => e ≠ jstr agentId)
          let fs1 := objSet fs "installed_agents" (jarr xs1)
          let fs2 :=
            if xs1.length = 0 then
              objSet (objSet fs1 "installed" (jbool false))
                "installation_date" jnull
            else fs1
          jobj fs2
      | _ => jobj fs
  | other => other

/-- In-place update of the first record matching `mcpId` — JS
`registry.mcps?.find(...)` aliases the found record, which is then mutated. -/
def updateMcpList (mcps : List Jv) (mcpId agentId : String)
    (installed : Bool) (now : String) : List Jv :=
  match mcps with
  | [] => []
  | m :: rest =>
      if idMatches m mcpId then
        (if installed then markInstalledRecord m agentId now
         else markUninstalledRecord m agentId) :: rest
      else m :: updateMcpList rest mcpId agentId installed now

/-- `updateMcpInstallationStatus(mcpId, agentId, installed)`
(mcp-kit.js:103–127): reload the cache file, mutate the found record, and
save `{ mcps: ... }` back; when no record matches, nothing is written and
the cache file is untouched. `now` is the `new Date().toISOString()` stamp,
used only on the first install of a plugin. -/
def updateMcpInstallationStatus (regFile : FileState) (mcpId agentId : String)
    (installed : Bool) (now : String) : FileState :=
  let mcps := loadMcpRegistrySync regFile
  if mcps.any (fun m => idMatches m mcpId) then
    saveMcpRegistry
      (jobj [("mcps", jarr (updateMcpList mcps mcpId agentId installed now))])
  else regFile

/-! ## The install / uninstall endpoints -/

/-- The two files the endpoints touch: the registry cache file and the
target agent's config file. -/
structure SysState where
  regFile : FileState
  agentCfg : FileState
deriving Repr, DecidableEq

/-- The response of `/api/install` (mcp-kit.js:724–762). -/
inductive InstallResult where
  /-- 400 `Invalid agent or MCP id`. -/
  | invalidIds
  /-- 400 `Missing required environment variables`, carrying, for every
  offending key, the key together with its declared metadata object
  (the JS payload spreads the metadata next to the key). -/
  | missingEnv (missing : List (String × Jv))
  /-- 200 `{ ok: true, mcpConfigPath }`. -/
  | installed
  /-- 500: the mutation threw — in this model, `mcp.command` was not a
  string, so `serverCommand.split(' ')` raised before any write. -/
  | mutationError
deriving Repr, DecidableEq

/-- The `envVars` object of the request body; `none` models a falsy
`envVars`. Values are strings (the UI submits form fields). -/
abbrev EnvVars := Option (List (String × String))

/-- Lookup in the `envVars` object. -/
def envValue : EnvVars → String → Option String
  | none, _ => none
  | some l, key => lookupStr l key
where
  lookupStr : List (String × String) → String → Option String
    | [], _ => none
    | (k, v) :: rest, key => if k = key then some v else lookupStr rest key

/-- The test `!envVars || !envVars[key] || envVars[key].trim() === ''`
(mcp-kit.js:741): the value is absent, the empty string (falsy), or
whitespace-only (its trim is empty). An all-whitespace check subsumes the
empty-string case; JS trims a slightly larger Unicode class than
`Char.isWhitespace`, which agrees on ASCII input. -/
def envMissing (envVars : EnvVars) (key : String) : Bool :=
  match envValue envVars key with
  | none => true
  | some s => s.data.all Char.isWhitespace

/-- The `missing` list built at mcp-kit.js:739–744: every declared env entry
whose metadata has a truthy `required` and whose supplied value is missing
or blank, in declaration order, as (key, metadata) pairs. -/
def collectMissingEnv (decls : List (String × Jv)) (envVars : EnvVars) :
    List (String × Jv) :=
  decls.filter (fun kv => otruthy (jget kv.2 "required") && envMissing envVars kv.1)

/-- `registry.mcps?.find(m => m.id === mcpId)`. -/
def findMcp (mcps : List Jv) (mcpId : String) : Option Jv :=
  mcps.find? (fun m => idMatches m mcpId)

/-- `envVars || {}` as the `env` object stored into the config entry. -/
def envVarsJv : EnvVars → Jv
  | none => jobj []
  | some l => jobj (l.map (fun kv => (kv.1, jstr kv.2)))

/-- The declared env metadata of the found record, as iterated by
`Object.entries(mcp.env)` when `mcp.env` is truthy: only an object yields
entries whose metadata can have a truthy `required`, so every other value
produces an empty `missing` list. -/
def mcpEnvDecls (mcp : Jv) : List (String × Jv) :=
  match jget mcp "env" with
  | some (jobj decls) => decls
  | _ => []

/-- `/api/install` (mcp-kit.js:724–762) as a transformation of the two
files. `agentFound` models whether `detectAgents()` resolves `agentId`
(agent detection reads the surrounding machine, outside this core);
`fetch` is the outcome of the `fetchCatalogFromGitHub()` call made by
`loadMcpRegistry`; `now` is the clock reading used for a first-install
stamp. Steps, in source order: load the registry (which persists a
successfully fetched catalog before anything else), resolve the record,
reject unknown ids, validate required env vars, then write the config
entry and mark the ledger. -/
def installEndpoint (st : SysState) (agentFound : Bool) (mcpId : String)
    (envVars : EnvVars) (agentId : String) (fetch : FetchResult)
    (now : String) : InstallResult × SysState :=
  let loaded := loadMcpRegistry fetch st.regFile
  let regFile1 := loaded.2
  let mcps := match jget loaded.1 "mcps" with
    | some (jarr xs) => xs
    | _ => []
  let st1 : SysState := { regFile := regFile1, agentCfg := st.agentCfg }
  match findMcp mcps mcpId with
  | none => (InstallResult.invalidIds, st1)
  | some mcp =>
      if !agentFound then (InstallResult.invalidIds, st1)
      else
        let missing := collectMissingEnv (mcpEnvDecls mcp) envVars
        if missing ≠ [] then (InstallResult.missingEnv missing, st1)
        else
          match jget mcp "command" with
          | some (jstr cmd) =>
              let cfg1 := addServerToMcpConfig st.agentCfg mcpId cmd
                (envVarsJv envVars) agentId
              let regFile2 :=
                updateMcpInstallationStatus regFile1 mcpId agentId true now
              (InstallResult.installed,
               { regFile := regFile2, agentCfg := cfg1 })
          | _ =>
              -- `mcp.command.split(' ')` throws before any write, and the
              -- handler's catch answers 500.
              (InstallResult.mutationError, st1)

/-- The response of `/api/uninstall` (mcp-kit.js:765–790). -/
inductive UninstallResult where
  /-- 400 `Invalid agent or MCP id` (unresolved agent, or a falsy `mcpId` —
  only the empty string among strings). -/
  | invalidIds
  /-- 404 `MCP not found in configuration`. -/
  | notFound
  /-- 200 `{ ok: true, mcpConfigPath }`. -/
  | uninstalled
deriving Repr, DecidableEq

/-- `/api/uninstall` (mcp-kit.js:765–790): resolve the agent; remove the
entry from its config; on `removed = false` answer 404 touching neither
file; on success persist and mark the ledger (the uninstall branch of
`updateMcpInstallationStatus` never reads the clock). -/
def uninstallEndpoint (st : SysState) (agentFound : Bool)
    (mcpId agentId : String) : UninstallResult × SysState :=
  if !agentFound || mcpId = "" then (UninstallResult.invalidIds, st)
  else
    let r := removeServerFromMcpConfig st.agentCfg mcpId agentId
    if r.2 then
      (UninstallResult.uninstalled,
       { regFile := updateMcpInstallationStatus st.regFile mcpId agentId false "",
         agentCfg := r.1 })
    else (UninstallResult.notFound, st)

/-! ## Observation helpers for the theorems -/

/-- The `mcpServers` mapping an agent-config file presents after the
normalization every config-touching code path performs (`[]` when the
normalized value is not an object, in which case no string-keyed entry
exists). -/
def mcpServersOf (cfg : FileState) (agentId : String) : List (String × Jv) :=
  match ensureMcpServersInConfig (readJson cfg) agentId with
  | jobj fields =>
      match objGet fields "mcpServers" with
      | some (jobj ms) => ms
      | _ => []
  | _ => []

/-- Well-formedness of a config's server entries: every stored value is
truthy (every entry this program ever writes is a `{command, args, env}`
object, which is truthy). -/
def mcpServersWF (cfg : FileState) (agentId : String) : Prop :=
  ∀ p v, objGet (mcpServersOf cfg agentId) p = some v → truthy v = true

/-- The `installed_agents` list of a record's field list (`[]` when the
field is absent or not an array). -/
def agentsList (fs : List (String × Jv)) : List Jv :=
  match objGet fs "installed_agents" with
  | some (jarr xs) => xs
  | _ => []

/-- Whether a record's `installation_date` is present and non-null. -/
def dateNonNull (fs : List (String × Jv)) : Bool :=
  match objGet fs "installation_date" with
  | none => false
  | some jnull => false
  | some _ => true

/-- Shape well-formedness of the ledger fields of one registry record, as
this program writes them: `installed` absent or a boolean,
`installed_agents` absent or an array of strings, `installation_date`
absent, `null`, or a string. -/
def recordWF (m : Jv) : Prop :=
  ∃ fs, m = jobj fs
    ∧ (match objGet fs "installed" with
       | none => True | some (jbool _) => True | _ => False)
    ∧ (match objGet fs "installed_agents" with
       | none => True
       | some (jarr xs) => ∀ e ∈ xs, ∃ s, e = jstr s
       | _ => False)
    ∧ (match objGet fs "installation_date" with
       | none => True | some jnull => True | some (jstr _) => True
       | _ => False)

/-- The ledger invariant of the specification on one record:
`installed == (installed_agents is non-empty)` and `installation_date` is
non-null exactly when `installed` is true. -/
def recordInv (m : Jv) : Prop :=
  ∀ fs, m = jobj fs →
    otruthy (objGet fs "installed") = !(agentsList fs).isEmpty
    ∧ dateNonNull fs = otruthy (objGet fs "installed")

/-- The `mcps` list of the catalog object `loadMcpRegistry` returns (`[]`
when `mcps` is not an array, in which case `find` has nothing to search). -/
def effectiveMcps (fetch : FetchResult) (regFile : FileState) : List Jv :=
  match jget (loadMcpRegistry fetch regFile).1 "mcps" with
  | some (jarr xs) => xs
  | _ => []

/-- The `installed_agents` of the record for `mcpId` in a registry cache
file (`[]` when no record matches or the record is not an object). -/
def registryAgents (regFile : FileState) (mcpId : String) : List Jv :=
  match findMcp (loadMcpRegistrySync regFile) mcpId with
  | some (jobj fs) => agentsList fs
  | _ => []

/-! ## `writeJsonSafe` and the file system around it -/

/-- A file system: parsed file contents by path, plus the existing
directories. -/
structure Fs where
  files : String → FileState
  dirs : List String

/-- `path.dirname`: the portion before the final `/`, `"."` when there is
no slash (the root / trailing-slash corner cases of node's implementation
do not arise for the config paths this program builds). -/
def dirname (p : String) : String :=
  match dirnameChars p.data with
  | some [] => "/"
  | some cs => String.mk cs
  | none => "."
where
  /-- The characters before the last `/`, or `none` if there is none. -/
  dirnameChars : List Char → Option (List Char)
    | [] => none
    | c :: rest =>
        match dirnameChars rest with
        | some tail => some (c :: tail)
        | none => if c = '/' then some [] else none

/-- `fs.mkdirSync(dir, { recursive: true })` guarded by `existsSync`. -/
def mkdirp (fs : Fs) (d : String) : Fs :=
  if d ∈ fs.dirs then fs else { fs with dirs := d :: fs.dirs }

/-- Store a file. -/
def setFile (fs : Fs) (p : String) (c : FileState) : Fs :=
  { fs with files := fun q => if q = p then c else fs.files q }

/-- `writeJsonSafe(file, data)` (mcp-kit.js:423–431): ensure the parent
directory exists; if the file exists, copy it to
`file + '.bak.' + Date.now()` (the copy is wrapped in a bare `catch`, so
its failure — modelled by `backupOk = false` — never blocks the write);
then overwrite the file with the pretty-printed serialization of `data`
(file contents are modelled at parse granularity, so the write stores
`data` itself). `now` is the `Date.now()` millisecond timestamp. -/
def writeJsonSafe (fs : Fs) (file : String) (data : Jv) (now : Nat)
    (backupOk : Bool) : Fs :=
  let fs1 := mkdirp fs (dirname file)
  let backupName := file ++ ".bak." ++ toString now
  let fs2 :=
    if (fs1.files file).isSome && backupOk then
      setFile fs1 backupName (fs1.files file)
    else fs1
  setFile fs2 file (some (Except.ok data))

/-! ## The upstream schema transform (specification §4.4)

The source files provided contain only the flat GitHub-raw fetch
(`fetchCatalogFromGitHub`, mcp-kit.js:536–568); the per-record transform
from the authoritative registry schema that the specification describes
(and that the repository's README documents as the data source) is not
among them. The following definitions are modelled from the
specification's words. -/

/-- Declared metadata of one environment variable (specification §3). -/
structure EnvDecl where
  required : Bool
  description : String
  placeholder : String
  help : String
  secret : Bool
deriving Repr, DecidableEq

/-- Modelled from the spec: one package of a raw upstream server record —
its registry type (package ecosystem), identifier, optional version,
optional transport, and declared environment variables. -/
structure RawPackage where
  registryType : String
  identifier : String
  version : Option String
  transport : Option String
  envDecls : List (String × EnvDecl)
deriving Repr, DecidableEq

/-- Modelled from the spec: a structurally parseable raw upstream server
record: the possible identity sources (a registry-assigned identifier,
the record's own `id`, `uuid`, or `name`) and its packages. -/
structure RawServer where
  registryId : Option String
  ownId : Option String
  uuid : Option String
  name : Option String
  packages : List RawPackage
deriving Repr, DecidableEq

/-- The internal record produced by the transform (the fields the
transform determines). -/
structure PluginRecord where
  id : String
  command : Option String
  env : List (String × EnvDecl)
deriving Repr, DecidableEq

/-- Modelled from the spec: a raw record of an upstream page; `Except.error`
is a malformed record (one that does not even parse into the raw shape). -/
abbrev RawRecord := Except Unit RawServer

/-- Last-seen-wins insertion used for the env union across packages. -/
def setEnvDecl (l : List (String × EnvDecl)) (k : String) (v : EnvDecl) :
    List (String × EnvDecl) :=
  match l with
  | [] => [(k, v)]
  | (k', v') :: rest =>
      if k' = k then (k, v) :: rest else (k', v') :: setEnvDecl rest k v

/-- Modelled from the spec: the union of all declared environment variables
across a record's packages; name collisions take the last-seen
definition. -/
def unionEnv (pkgs : List RawPackage) : List (String × EnvDecl) :=
  pkgs.foldl (fun acc p =>
    p.envDecls.foldl (fun a kv => setEnvDecl a kv.1 kv.2) acc) []

/-- Modelled from the spec: the best installable package — the first whose
registry type is the primary package ecosystem (`npm`). -/
def primaryPackage (pkgs : List RawPackage) : Option RawPackage :=
  pkgs.find? (fun p => p.registryType = "npm")

/-- Modelled from the spec: the launch command
`<runner> <packageIdentifier>@<version-or-"latest">`, with a transport
suffix appended for a non-default `sse` transport. -/
def commandFor (p : RawPackage) : String :=
  "npx " ++ p.identifier ++ "@" ++ p.version.getD "latest" ++
    (match p.transport with
     | some "sse" => " --transport sse"
     | _ => "")

/-- Modelled from the spec (§4.4): `transform(rawServer) -> PluginRecord |
null`. A malformed record, or one with no resolvable identity, yields
`none`; otherwise the identity is the first available of
registry-assigned id, own id, uuid, name; `command` is `none` when no
primary-ecosystem package exists. -/
def transformRecord : RawRecord → Option PluginRecord
  | Except.error _ => none
  | Except.ok r =>
      match r.registryId.orElse (fun _ =>
            r.ownId.orElse (fun _ => r.uuid.orElse (fun _ => r.name))) with
      | none => none
      | some i =>
          some { id := i,
                 command := (primaryPackage r.packages).map commandFor,
                 env := unionEnv r.packages }

/-- Modelled from the spec: the caller maps the transform over a fetched
page and filters the `null`s out. -/
def transformPage (page : List RawRecord) : List PluginRecord :=
  page.filterMap transformRecord

/-- Key-occurrence count in an object's field list. -/
def countKey : List (String × Jv) → String → Nat
  | [], _ => 0
  | (k', _) :: rest, k => (if k' = k then 1 else 0) + countKey rest k

/-- The entry `addServerToMcpConfig` stores for a command line `C` and env
object `E`. -/
def cmdEntry (C : String) (E : Jv) : Jv :=
  serverEntry ((jsSplitOnSpace C).headD "") ((jsSplitOnSpace C).tail) E

/-! ## Concrete fixtures used by counterexamples and witnesses -/

/-- A raw record that the transform resolves. -/
def c9Good : RawServer :=
  { registryId := some "io.example/server", ownId := none, uuid := none,
    name := none,
    packages := [{ registryType := "npm", identifier := "@x/srv",
                   version := some "1.0.0", transport := none,
                   envDecls := [] }] }

/-- A cached record marked installed. -/
def c1OldRecord : Jv :=
  jobj [("id", jstr "p"), ("installed", jbool true),
        ("installed_agents", jarr [jstr "a"]),
        ("installation_date", jstr "D")]

/-- A registry cache containing `c1OldRecord`. -/
def c1PreCache : FileState :=
  some (Except.ok (jobj [("mcps", jarr [c1OldRecord])]))

/-- The freshly fetched record for the same id, carrying no installation
state. -/
def c1NewRecord : Jv := jobj [("id", jstr "p"), ("name", jstr "P")]

/-- A fetched catalog containing `c1NewRecord`. -/
def c1Fetched : Jv := jobj [("mcps", jarr [c1NewRecord])]

/-- A tiny concrete file system exercising the backup branch. -/
def c8Fs : Fs :=
  { files := fun p => if p = "home/agent/mcp.json"
      then some (Except.ok (jstr "old")) else none,
    dirs := [] }

/-- A minimal fresh registry record (no installation state yet). -/
def c6Rec : Jv := jobj [("id", jstr "p")]

/-- A registry cache holding just `c6Rec`. -/
def c6Cache : FileState := some (Except.ok (jobj [("mcps", jarr [c6Rec])]))

/-- The declared metadata of the required env key `"K"`. -/
def c2Decl : Jv := jobj [("required", jbool true)]

/-- A catalog record with id `"p"`, a command, and one required env key. -/
def c2Mcp : Jv :=
  jobj [("id", jstr "p"), ("command", jstr "npx x"),
        ("env", jobj [("K", c2Decl)])]

/-- A catalog record with a command and no declared env vars. -/
def c5Fsm : List (String × Jv) :=
  [("id", jstr "p"), ("command", jstr "npx x"), ("env", jobj [])]

/-- A system state whose registry cache holds just `c5Fsm`. -/
def c5St : SysState :=
  SysState.mk (some (Except.ok (jobj [("mcps", jarr [jobj c5Fsm])]))) none

/-- An existing server entry under id `"q"`. -/
def c10Ms : List (String × Jv) := [("q", jobj [("command", jstr "x")])]

/-- A config object with an unrelated top-level key and an existing
`mcpServers` mapping. -/
def c10Fields : List (String × Jv) :=
  [("theme", jstr "dark"), ("mcpServers", jobj c10Ms)]

/-! ## Association-list lemmas -/

theorem objGet_objSet_self (fields : List (String × Jv)) (k : String) (v : Jv) :
    objGet (objSet fields k v) k = some v := by
  induction fields with
  | nil => simp [objSet, objGet]
  | cons kv rest ih =>
      obtain ⟨k', v'⟩ := kv
      by_cases h : k' = k
      · simp [objSet, objGet, h]
      · simp [objSet, objGet, h, ih]

theorem objGet_objSet_ne (fields : List (String × Jv)) (k k' : String) (v : Jv)
    (h : k' ≠ k) : objGet (objSet fields k v) k' = objGet fields k' := by
  induction fields with
  | nil => simp [objSet, objGet, Ne.symm h]
  | cons kv rest ih =>
      obtain ⟨k₀, v₀⟩ := kv
      by_cases h0 : k₀ = k
      · subst h0
        simp [objSet, objGet, Ne.symm h]
      · by_cases h1 : k₀ = k'
        · subst h1
          simp [objSet, objGet, h, h0]
        · simp [objSet, objGet, h0, h1, ih]

theorem objSet_objSet_same (fields : List (String × Jv)) (k : String)
    (v w : Jv) : objSet (objSet fields k v) k w = objSet fields k w := by
  induction fields with
  | nil => simp [objSet]
  | cons kv rest ih =>
      obtain ⟨k₀, v₀⟩ := kv
      by_cases h0 : k₀ = k
      · simp [objSet, h0]
      · simp [objSet, h0, ih]

theorem objGet_objDel_self (fields : List (String × Jv)) (k : String) :
    objGet (objDel fields k) k = none := by
  induction fields with
  | nil => simp [objDel, objGet]
  | cons kv rest ih =>
      obtain ⟨k₀, v₀⟩ := kv
      by_cases h0 : k₀ = k
      · simpa [objDel, h0] using ih
      · simpa [objDel, objGet, h0] using ih

theorem objGet_objDel_ne (fields : List (String × Jv)) (k k' : String)
    (h : k' ≠ k) : objGet (objDel fields k) k' = objGet fields k' := by
  induction fields with
  | nil => simp [objDel, objGet]
  | cons kv rest ih =>
      obtain ⟨k₀, v₀⟩ := kv
      by_cases h0 : k₀ = k
      · subst h0
        simpa [objDel, objGet, Ne.symm h] using ih
      · by_cases h1 : k₀ = k'
        · subst h1
          simp [objDel, objGet, h, h0]
        · simpa [objDel, objGet, h0, h1] using ih

theorem countKey_objSet (fields : List (String × Jv)) (k : String) (v : Jv)
    (h : countKey fields k ≤ 1) : countKey (objSet fields k v) k = 1 := by
  induction fields with
  | nil => simp [objSet, countKey]
  | cons kv rest ih =>
      obtain ⟨k₀, v₀⟩ := kv
      by_cases h0 : k₀ = k
      · subst h0
        simp [countKey, objSet] at h ⊢
        omega
      · simp only [countKey, if_neg h0] at h ⊢
        simp only [objSet, if_neg h0, countKey, if_neg h0]
        have := ih (by omega)
        omega

/-! ## C9 — per-record failure of the transform is local -/

theorem length_transformPage (page : List RawRecord) :
    (transformPage page).length
      + page.countP (fun r => (transformRecord r).isNone) = page.length := by
  induction page with
  | nil => simp [transformPage]
  | cons r rest ih =>
      simp only [transformPage] at ih ⊢
      cases hr : transformRecord r with
      | none =>
          simp [List.filterMap_cons, hr, List.countP_cons]
          omega
      | some p =>
          simp [List.filterMap_cons, hr, List.countP_cons]
          omega

/-- C9: a malformed upstream record transforms to `null` and is filtered
out without aborting the rest of the page: in a 50-record page with at
most one bad record, at least 49 records survive, and a bad record
anywhere in the page removes exactly itself. (The transform is modelled
from the specification §4.4; its implementation is not among the provided
source files.) -/
theorem transform_drops_only_bad_records (page : List RawRecord)
    (hlen : page.length = 50)
    (hbad : page.countP (fun r => (transformRecord r).isNone) ≤ 1) :
    49 ≤ (transformPage page).length
    ∧ transformRecord (Except.error ()) = none
    ∧ (∀ xs ys bad, transformRecord bad = none →
        transformPage (xs ++ bad :: ys) = transformPage xs ++ transformPage ys) := by
  refine ⟨?_, rfl, ?_⟩
  · have h := length_transformPage page
    omega
  · intro xs ys bad hb
    simp [transformPage, List.filterMap_append, List.filterMap_cons, hb]

theorem transform_drops_only_bad_records_witness :
    (List.replicate 49 (Except.ok c9Good) ++ [(Except.error () : RawRecord)]).length = 50
    ∧ 49 ≤ (transformPage
        (List.replicate 49 (Except.ok c9Good) ++ [(Except.error () : RawRecord)])).length := by
  constructor
  · decide
  · exact (transform_drops_only_bad_records _ (by decide) (by decide)).1

/-! ## C1 — a successful refresh overwrites the cache verbatim -/

/-- C1 counterexample: a refresh whose fetched catalog still contains the
installed plugin's id writes the fetched record verbatim — the written
cache's record for `"p"` no longer carries `installed = true`, the
previous `installed_agents`, or the previous `installation_date`, even
though the pre-refresh cache did. -/
theorem refresh_discards_installed_state :
    (refreshRegistry (Except.ok c1Fetched) c1PreCache).1
      = some (Except.ok c1Fetched)
    ∧ findMcp (loadMcpRegistrySync
        (refreshRegistry (Except.ok c1Fetched) c1PreCache).1) "p"
        = some c1NewRecord
    ∧ jget c1NewRecord "installed" ≠ some (jbool true)
    ∧ jget c1NewRecord "installed_agents" ≠ some (jarr [jstr "a"])
    ∧ jget c1NewRecord "installation_date" ≠ some (jstr "D")
    ∧ findMcp (loadMcpRegistrySync c1PreCache) "p" = some c1OldRecord
    ∧ jget c1OldRecord "installed" = some (jbool true)
    ∧ jget c1OldRecord "installed_agents" = some (jarr [jstr "a"])
    ∧ jget c1OldRecord "installation_date" = some (jstr "D") := by
  decide

/-- C1 (amended): both the on-demand refresh endpoint and the periodic
refresh write the successfully fetched catalog to the registry cache file
verbatim; the installation-state fields of the previous cache are not
merged into it, so a record's post-refresh installation state is exactly
whatever the fetched catalog carries. -/
theorem refresh_writes_fetched_catalog_verbatim (fetch : FetchResult)
    (v : Jv) (regFile : FileState) (h : fetchedCatalog fetch = some v) :
    refreshRegistry fetch regFile = (some (Except.ok v), false) := by
  simp [refreshRegistry, h, saveMcpRegistry]

theorem refresh_writes_fetched_catalog_verbatim_witness :
    refreshRegistry (Except.ok c1Fetched) c1PreCache
      = (some (Except.ok c1Fetched), false) :=
  refresh_writes_fetched_catalog_verbatim _ c1Fetched c1PreCache (by decide)

/-! ## C7 — the source chain always yields a catalog -/

/-- When the local cache file is missing, unparseable, or holds no `mcps`
array, the sync loader degrades to the empty list. -/
theorem loadSync_empty_of_bad_local (regFile : FileState)
    (h : regFile = none ∨ regFile = some (Except.error ())
      ∨ ∀ v, regFile = some (Except.ok v) →
          ∀ xs, jget v "mcps" ≠ some (jarr xs)) :
    loadMcpRegistrySync regFile = [] := by
  rcases h with h | h | h
  · simp [loadMcpRegistrySync, h]
  · simp [loadMcpRegistrySync, h]
  · match regFile with
    | none => simp [loadMcpRegistrySync]
    | some (Except.error ()) => simp [loadMcpRegistrySync]
    | some (Except.ok v) =>
        have hv := h v rfl
        simp only [loadMcpRegistrySync]
        cases htr : (truthy v && isObjectType v) with
        | false => simp
        | true =>
            simp only [if_pos rfl]
            cases hm : jget v "mcps" with
            | none => rfl
            | some mv =>
                cases mv with
                | jarr xs => exact absurd hm (hv xs)
                | jnull => rfl
                | jbool b => rfl
                | jnum n => rfl
                | jstr s => rfl
                | jobj fs => rfl

/-- C7: when the remote fetch does not yield a catalog (network error,
unparseable payload, or a parse result without a truthy `mcps`) and the
local cache file is missing, unreadable, or lacks an `mcps` array, the
loader returns the empty catalog `{mcps: []}` without touching the cache
file (totality of the model witnesses that no exception escapes); and a
failing fetch alone falls through to the local tier, serving its `mcps`
array. -/
theorem loadRegistry_falls_back_to_empty (fetch : FetchResult)
    (regFile : FileState) (hfetch : fetchedCatalog fetch = none) :
    ((regFile = none ∨ regFile = some (Except.error ())
        ∨ ∀ v, regFile = some (Except.ok v) →
            ∀ xs, jget v "mcps" ≠ some (jarr xs)) →
      loadMcpRegistry fetch regFile = (jobj [("mcps", jarr [])], regFile))
    ∧ (∀ v xs, regFile = some (Except.ok v) → truthy v = true →
        isObjectType v = true → jget v "mcps" = some (jarr xs) →
        loadMcpRegistry fetch regFile = (jobj [("mcps", jarr xs)], regFile)) := by
  constructor
  · intro hlocal
    have hsync := loadSync_empty_of_bad_local regFile hlocal
    simp [loadMcpRegistry, hfetch, hsync]
  · intro v xs hreg ht hobj hm
    have hsync : loadMcpRegistrySync regFile = xs := by
      simp [loadMcpRegistrySync, hreg, ht, hobj, hm]
    simp [loadMcpRegistry, hfetch, hsync]

theorem loadRegistry_falls_back_to_empty_witness :
    loadMcpRegistry (Except.error ()) (some (Except.error ()))
      = (jobj [("mcps", jarr [])], some (Except.error ()))
    ∧ loadMcpRegistry (Except.error ())
        (some (Except.ok (jobj [("mcps", jarr [c1OldRecord])])))
      = (jobj [("mcps", jarr [c1OldRecord])],
         some (Except.ok (jobj [("mcps", jarr [c1OldRecord])]))) :=
  ⟨(loadRegistry_falls_back_to_empty (Except.error ())
      (some (Except.error ())) (by decide)).1 (Or.inr (Or.inl rfl)),
   (loadRegistry_falls_back_to_empty (Except.error ()) _ (by decide)).2
      (jobj [("mcps", jarr [c1OldRecord])]) [c1OldRecord] rfl
      (by decide) (by decide) (by decide)⟩

/-! ## C8 — `writeJsonSafe` backs up, then writes -/

/-- C8: `writeJsonSafe` ensures the parent directory exists; when a file
already exists at the path, it is first copied to
`path + ".bak." + <write-timestamp>`; and independently of whether that
backup copy succeeded, the primary write replaces the file with the
serialized document. -/
theorem writeJsonSafe_backs_up_then_writes (fs : Fs) (file : String)
    (data : Jv) (now : Nat) (backupOk : Bool) :
    (writeJsonSafe fs file data now backupOk).files file
      = some (Except.ok data)
    ∧ dirname file ∈ (writeJsonSafe fs file data now backupOk).dirs
    ∧ ((fs.files file).isSome = true → backupOk = true →
        (writeJsonSafe fs file data now backupOk).files
            (file ++ ".bak." ++ toString now)
          = fs.files file) := by
  have hne : file ≠ file ++ ".bak." ++ toString now := by
    intro h
    have hlen := congrArg String.length h
    have h5 : (".bak." : String).length = 5 := rfl
    simp [String.length_append, h5] at hlen
    omega
  refine ⟨?_, ?_, ?_⟩
  · simp [writeJsonSafe, setFile]
  · simp only [writeJsonSafe, setFile]
    by_cases hb : ((mkdirp fs (dirname file)).files file).isSome && backupOk
    · simp only [hb, if_pos rfl]
      simp [mkdirp]
      split <;> simp_all
    · simp only [hb]
      simp [mkdirp]
      split <;> simp_all
  · intro hex hbok
    have hfiles : (mkdirp fs (dirname file)).files = fs.files := by
      simp [mkdirp]
      split <;> rfl
    simp only [writeJsonSafe, setFile, hfiles, hex, hbok, Bool.and_self,
      if_pos rfl]
    simp [Ne.symm hne, hne]

theorem writeJsonSafe_backs_up_then_writes_witness :
    (writeJsonSafe c8Fs "home/agent/mcp.json" jnull 7 true).files
        "home/agent/mcp.json" = some (Except.ok jnull)
    ∧ dirname "home/agent/mcp.json"
        ∈ (writeJsonSafe c8Fs "home/agent/mcp.json" jnull 7 true).dirs
    ∧ (writeJsonSafe c8Fs "home/agent/mcp.json" jnull 7 true).files
        ("home/agent/mcp.json" ++ ".bak." ++ toString 7)
      = c8Fs.files "home/agent/mcp.json" :=
  ⟨(writeJsonSafe_backs_up_then_writes c8Fs "home/agent/mcp.json" jnull 7 true).1,
   (writeJsonSafe_backs_up_then_writes c8Fs "home/agent/mcp.json" jnull 7 true).2.1,
   (writeJsonSafe_backs_up_then_writes c8Fs "home/agent/mcp.json" jnull 7
      true).2.2 (by decide) rfl⟩

/-! ## C3 — the command line splits on single spaces, not whitespace -/

/-- C3 counterexample: the source splits the command line with
`split(' ')`, so a tab is not a separator: for the command line
`"npx\t@x"` the stored entry keeps the whole string as `command` with no
`args`, while splitting on whitespace (as the claim words it) would give
`command = "npx"`, `args = ["@x"]`. -/
theorem split_is_not_whitespace_split :
    whitespaceTokens "npx\t@x" = ["npx", "@x"]
    ∧ jget (addServerConfig none "p" "npx\t@x" (jobj []) "cursor") "mcpServers"
        = some (jobj [("p", serverEntry "npx\t@x" [] (jobj []))])
    ∧ serverEntry "npx\t@x" [] (jobj [])
        ≠ serverEntry "npx" ["@x"] (jobj []) := by
  decide

/-- C3 (amended): `addServerToMcpConfig` splits the command line on single
space characters (JS `split(' ')`): `command` is the text before the first
space and `args` the remaining space-separated fields in order
(consecutive spaces yield empty-string fields; tabs and other whitespace
are not separators), and it inserts or overwrites
`mcpServers[serverId] = {command, args, env}`. For single-spaced command
lines this coincides with whitespace tokenization, as in the claim's
concrete `fs-mcp` instance (the witness). -/
theorem setEntry_splits_on_single_space (prev : FileState) (P C : String)
    (E : Jv) (agentId : String) (fields ms : List (String × Jv))
    (h1 : ensureMcpServersInConfig (readJson prev) agentId = jobj fields)
    (h2 : objGet fields "mcpServers" = some (jobj ms)) :
    jget (addServerConfig prev P C E agentId) "mcpServers"
      = some (jobj (objSet ms P (serverEntry ((jsSplitOnSpace C).headD "")
          ((jsSplitOnSpace C).tail) E)))
    ∧ objGet (objSet ms P (serverEntry ((jsSplitOnSpace C).headD "")
          ((jsSplitOnSpace C).tail) E)) P
        = some (serverEntry ((jsSplitOnSpace C).headD "")
            ((jsSplitOnSpace C).tail) E) := by
  constructor
  · simp [addServerConfig, setServerEntry, h1, h2, jget, objGet_objSet_self]
  · exact objGet_objSet_self ms P _

theorem setEntry_splits_on_single_space_witness :
    jget (addServerConfig none "fs-mcp" "npx @x/fs@1.0.0"
        (jobj [("TOKEN", jstr "abc")]) "agentX") "mcpServers"
      = some (jobj [("fs-mcp",
          jobj [("command", jstr "npx"),
                ("args", jarr [jstr "@x/fs@1.0.0"]),
                ("env", jobj [("TOKEN", jstr "abc")])])]) :=
  (setEntry_splits_on_single_space none "fs-mcp" "npx @x/fs@1.0.0"
    (jobj [("TOKEN", jstr "abc")]) "agentX"
    [("mcpServers", jobj [])] [] (by decide) (by decide)).1

/-! ## Normalization lemmas shared by C4, C5 and C10 -/

/-- Normalizing a config object whose `mcpServers` is already an object
changes nothing, for every agent kind. -/
theorem ensure_of_obj_mcpServers (fields ms : List (String × Jv))
    (a : String) (h : objGet fields "mcpServers" = some (jobj ms)) :
    ensureMcpServersInConfig (jobj fields) a = jobj fields := by
  simp [ensureMcpServersInConfig, truthy, isObjectType, h,
    mcpServersNeedsReset, otruthy]

/-- On a config object, normalization either keeps the field list or sets
`mcpServers` to `{}`; in both cases every other top-level key is
untouched. -/
theorem ensure_obj_cases (fields : List (String × Jv)) (a : String) :
    (ensureMcpServersInConfig (jobj fields) a = jobj fields
      ∨ ensureMcpServersInConfig (jobj fields) a
          = jobj (objSet fields "mcpServers" (jobj []))) := by
  by_cases hk : a ∈ knownAgentIds
  · by_cases hr : mcpServersNeedsReset (objGet fields "mcpServers") = true
    · right; simp [ensureMcpServersInConfig, truthy, isObjectType, hk, hr]
    · left; simp [ensureMcpServersInConfig, truthy, isObjectType, hk, hr]
  · by_cases ho : otruthy (objGet fields "mcpServers") = true
    · left; simp [ensureMcpServersInConfig, truthy, isObjectType, hk, ho]
    · right; simp [ensureMcpServersInConfig, truthy, isObjectType, hk, ho]

/-! ## C4 — uninstalling an absent plugin -/

/-- Behaviour of `removeServerFromMcpConfig` by presence of the entry:
an absent key removes nothing and leaves the file untouched; a present
truthy entry is removed; a present falsy value is not removed (but no
entry this program writes is falsy); and after a successful removal the
key is gone. -/
theorem removeServer_spec (cfg : FileState) (P a : String) :
    (objGet (mcpServersOf cfg a) P = none →
        removeServerFromMcpConfig cfg P a = (cfg, false))
    ∧ (∀ v, objGet (mcpServersOf cfg a) P = some v → truthy v = true →
        (removeServerFromMcpConfig cfg P a).2 = true)
    ∧ (∀ v, objGet (mcpServersOf cfg a) P = some v → truthy v = false →
        removeServerFromMcpConfig cfg P a = (cfg, false))
    ∧ ((removeServerFromMcpConfig cfg P a).2 = true →
        objGet (mcpServersOf (removeServerFromMcpConfig cfg P a).1 a) P
          = none) := by
  cases hc : ensureMcpServersInConfig (readJson cfg) a with
  | jobj fields =>
      cases hm : objGet fields "mcpServers" with
      | none =>
          refine ⟨?_, ?_, ?_, ?_⟩ <;>
            simp [removeServerFromMcpConfig, mcpServersOf, hc, hm, objGet]
      | some mv =>
          cases mv
          case jobj ms =>
            by_cases hp : otruthy (objGet ms P) = true
            · have hrm : removeServerFromMcpConfig cfg P a
                  = (some (Except.ok (jobj (objSet fields "mcpServers"
                      (jobj (objDel ms P))))), true) := by
                simp [removeServerFromMcpConfig, hc, hm, hp]
              refine ⟨?_, ?_, ?_, ?_⟩
              · intro habs
                simp only [mcpServersOf, hc, hm] at habs
                rw [habs] at hp
                simp [otruthy] at hp
              · intro v _ _
                rw [hrm]
              · intro v hv htv
                simp only [mcpServersOf, hc, hm] at hv
                rw [hv] at hp
                simp [otruthy, htv] at hp
              · intro _
                rw [hrm]
                have hens := ensure_of_obj_mcpServers
                  (objSet fields "mcpServers" (jobj (objDel ms P)))
                  (objDel ms P) a (objGet_objSet_self fields "mcpServers" _)
                simp only [mcpServersOf, readJson, hens,
                  objGet_objSet_self]
                exact objGet_objDel_self ms P
            · have hrm : removeServerFromMcpConfig cfg P a = (cfg, false) := by
                simp [removeServerFromMcpConfig, hc, hm,
                  Bool.of_not_eq_true hp]
              refine ⟨?_, ?_, ?_, ?_⟩
              · intro _; exact hrm
              · intro v hv htv
                simp only [mcpServersOf, hc, hm] at hv
                rw [hv] at hp
                simp [otruthy, htv] at hp
              · intro v _ _; exact hrm
              · intro hcontra
                rw [hrm] at hcontra
                simp at hcontra
          all_goals
            refine ⟨?_, ?_, ?_, ?_⟩ <;>
              simp [removeServerFromMcpConfig, mcpServersOf, hc, hm, objGet]
  | jnull =>
      refine ⟨?_, ?_, ?_, ?_⟩ <;>
        simp [removeServerFromMcpConfig, mcpServersOf, hc, objGet]
  | jbool b =>
      refine ⟨?_, ?_, ?_, ?_⟩ <;>
        simp [removeServerFromMcpConfig, mcpServersOf, hc, objGet]
  | jnum n =>
      refine ⟨?_, ?_, ?_, ?_⟩ <;>
        simp [removeServerFromMcpConfig, mcpServersOf, hc, objGet]
  | jstr s =>
      refine ⟨?_, ?_, ?_, ?_⟩ <;>
        simp [removeServerFromMcpConfig, mcpServersOf, hc, objGet]
  | jarr xs =>
      refine ⟨?_, ?_, ?_, ?_⟩ <;>
        simp [removeServerFromMcpConfig, mcpServersOf, hc, objGet]

/-- C4: uninstalling a plugin that is not present in the agent config's
`mcpServers` mapping answers "not found" (no crash), writes nothing (the
config file state — hence its bytes — and the registry ledger are both
exactly as before), and `removeServerFromMcpConfig` reports `false`
exactly in the absent case (for well-formed configs, whose entries are
truthy objects) and `true` exactly when it deleted the entry. -/
theorem uninstall_absent_is_notFound (st : SysState) (mcpId agentId : String)
    (hid : mcpId ≠ "")
    (habs : objGet (mcpServersOf st.agentCfg agentId) mcpId = none) :
    uninstallEndpoint st true mcpId agentId = (UninstallResult.notFound, st)
    ∧ removeServerFromMcpConfig st.agentCfg mcpId agentId = (st.agentCfg, false)
    ∧ (∀ cfg P a, mcpServersWF cfg a →
        ((removeServerFromMcpConfig cfg P a).2 = false ↔
          objGet (mcpServersOf cfg a) P = none))
    ∧ (∀ cfg P a, (removeServerFromMcpConfig cfg P a).2 = true →
        objGet (mcpServersOf (removeServerFromMcpConfig cfg P a).1 a) P
          = none) := by
  have hrm := (removeServer_spec st.agentCfg mcpId agentId).1 habs
  refine ⟨?_, hrm, ?_, ?_⟩
  · simp [uninstallEndpoint, hid, hrm]
  · intro cfg P a hwf
    constructor
    · intro hfalse
      cases hv : objGet (mcpServersOf cfg a) P with
      | none => rfl
      | some v =>
          have ht := hwf P v hv
          have := (removeServer_spec cfg P a).2.1 v hv ht
          rw [hfalse] at this
          cases this
    · intro hnone
      rw [(removeServer_spec cfg P a).1 hnone]
  · intro cfg P a
    exact (removeServer_spec cfg P a).2.2.2

theorem uninstall_absent_is_notFound_witness :
    uninstallEndpoint
        (SysState.mk (some (Except.ok (jobj [("mcps", jarr [])])))
          (some (Except.ok (jobj [("mcpServers",
            jobj [("q", jobj [("command", jstr "x")])])]))))
        true "p" "cursor"
      = (UninstallResult.notFound,
         SysState.mk (some (Except.ok (jobj [("mcps", jarr [])])))
          (some (Except.ok (jobj [("mcpServers",
            jobj [("q", jobj [("command", jstr "x")])])])))) :=
  (uninstall_absent_is_notFound _ "p" "cursor" (by decide) (by decide)).1

/-! ## C10 — the config rewrite only touches `mcpServers[P]` -/

/-- Normalizing a config object without a `mcpServers` key sets it to `{}`,
for every agent kind. -/
theorem ensure_reset_of_none (fields : List (String × Jv)) (a : String)
    (h : objGet fields "mcpServers" = none) :
    ensureMcpServersInConfig (jobj fields) a
      = jobj (objSet fields "mcpServers" (jobj [])) := by
  by_cases hk : a ∈ knownAgentIds
  · simp [ensureMcpServersInConfig, truthy, isObjectType, hk, h,
      mcpServersNeedsReset]
  · simp [ensureMcpServersInConfig, truthy, isObjectType, hk, h, otruthy]

/-- Whatever the previous state of `mcpServers`, the rewrite leaves every
other top-level key of the config object untouched. -/
theorem addServerConfig_top_frame (fields : List (String × Jv))
    (P C : String) (E : Jv) (agentId : String) (k : String)
    (hk : k ≠ "mcpServers") :
    jget (addServerConfig (some (Except.ok (jobj fields))) P C E agentId) k
      = objGet fields k := by
  rcases ensure_obj_cases fields agentId with h | h <;>
    simp only [addServerConfig, readJson, h, setServerEntry]
  · cases hm : objGet fields "mcpServers" with
    | none => simp [jget]
    | some mv =>
        cases mv <;>
          simp [jget, hm, objGet_objSet_ne fields "mcpServers" k _ hk]
  · rw [objGet_objSet_self]
    simp only [jget]
    rw [objSet_objSet_same, objGet_objSet_ne fields "mcpServers" k _ hk]

/-- C10: when the target config file parses as a JSON object, the rewrite
performed by install preserves every top-level key other than
`mcpServers` and every `mcpServers` entry under a different id, and it
adds or replaces exactly `mcpServers[P]`; when the file is missing or
unparseable it starts from the empty object, yielding just the new
entry. -/
theorem install_preserves_unrelated_config (fields : List (String × Jv))
    (P C : String) (E : Jv) (agentId : String) :
    (∀ k, k ≠ "mcpServers" →
      jget (addServerConfig (some (Except.ok (jobj fields))) P C E agentId) k
        = objGet fields k)
    ∧ (∀ ms, objGet fields "mcpServers" = some (jobj ms) →
        jget (addServerConfig (some (Except.ok (jobj fields))) P C E agentId)
            "mcpServers" = some (jobj (objSet ms P (cmdEntry C E)))
        ∧ ∀ k, k ≠ P → objGet (objSet ms P (cmdEntry C E)) k = objGet ms k)
    ∧ (objGet fields "mcpServers" = none →
        jget (addServerConfig (some (Except.ok (jobj fields))) P C E agentId)
            "mcpServers" = some (jobj [(P, cmdEntry C E)]))
    ∧ (∀ prev : FileState, (prev = none ∨ prev = some (Except.error ())) →
        addServerConfig prev P C E agentId
          = jobj [("mcpServers", jobj [(P, cmdEntry C E)])]) := by
  refine ⟨fun k hk => addServerConfig_top_frame fields P C E agentId k hk,
    ?_, ?_, ?_⟩
  · intro ms hm
    have hens := ensure_of_obj_mcpServers fields ms agentId hm
    constructor
    · simp only [addServerConfig, readJson, hens, setServerEntry, hm, jget]
      rw [objGet_objSet_self]
      rfl
    · intro k hk
      exact objGet_objSet_ne ms P k _ hk
  · intro hm
    have hens := ensure_reset_of_none fields agentId hm
    simp only [addServerConfig, readJson, hens, setServerEntry,
      objGet_objSet_self, jget]
    rfl
  · intro prev hprev
    have hr : readJson prev = jobj [] := by
      rcases hprev with h | h <;> simp [readJson, h]
    have hens := ensure_reset_of_none [] agentId (by simp [objGet])
    simp only [addServerConfig, hr, hens, setServerEntry, objSet, jget]
    rfl

/-! ## C6 — the ledger preserves the installation invariant -/

/-- Replacing the `installed_agents` / `installed` / `installation_date`
keys leaves every other key unchanged. -/
theorem objGet_set_ledger_keys (fs : List (String × Jv)) (v₁ v₂ v₃ : Jv)
    (k : String) (h₁ : k ≠ "installed_agents") (h₂ : k ≠ "installed")
    (h₃ : k ≠ "installation_date") :
    objGet (objSet (objSet (objSet fs "installed_agents" v₁) "installed" v₂)
      "installation_date" v₃) k = objGet fs k := by
  rw [objGet_objSet_ne _ _ _ _ h₃, objGet_objSet_ne _ _ _ _ h₂,
    objGet_objSet_ne _ _ _ _ h₁]

/-- Field-level description of the `installed = true` ledger mutation on a
record whose `installed_agents` is absent or an array. -/
theorem markInstalled_fields (fs : List (String × Jv)) (a now : String)
    (hA : objGet fs "installed_agents" = none
        ∨ ∃ xs, objGet fs "installed_agents" = some (jarr xs)) :
    ∃ fs', markInstalledRecord (jobj fs) a now = jobj fs'
      ∧ objGet fs' "installed_agents"
          = some (jarr (if jsIncludesStr (agentsList fs) a = true
              then agentsList fs else agentsList fs ++ [jstr a]))
      ∧ (∀ k, k ≠ "installed_agents" → k ≠ "installed" →
          k ≠ "installation_date" → objGet fs' k = objGet fs k)
      ∧ (otruthy (objGet fs "installed") = true →
          objGet fs' "installed" = objGet fs "installed"
          ∧ objGet fs' "installation_date" = objGet fs "installation_date")
      ∧ (otruthy (objGet fs "installed") = false →
          objGet fs' "installed" = some (jbool true)
          ∧ objGet fs' "installation_date" = some (jstr now)) := by
  have hagets :
      ∀ w : Jv, objGet (objSet fs "installed_agents" w) "installed"
        = objGet fs "installed" :=
    fun w => objGet_objSet_ne fs "installed_agents" "installed" w (by decide)
  -- reduce the mutation to a uniform shape
  have hshape : ∃ ys, agentsList fs = ys
      ∧ markInstalledRecord (jobj fs) a now
        = (let xs1 := if jsIncludesStr ys a then ys else ys ++ [jstr a]
           let fs2 := objSet fs "installed_agents" (jarr xs1)
           if !otruthy (objGet fs "installed") then
             jobj (objSet (objSet fs2 "installed" (jbool true))
               "installation_date" (jstr now))
           else jobj fs2) := by
    rcases hA with hA | ⟨xs, hA⟩
    · refine ⟨[], by simp [agentsList, hA], ?_⟩
      simp [markInstalledRecord, hA, otruthy, objGet_objSet_self,
        objSet_objSet_same, hagets, jsIncludesStr]
      split <;> rfl
    · refine ⟨xs, by simp [agentsList, hA], ?_⟩
      simp [markInstalledRecord, hA, otruthy, truthy, objGet_objSet_self,
        objSet_objSet_same, hagets, jsIncludesStr]
      split <;> rfl
  obtain ⟨ys, hys, heq⟩ := hshape
  rw [hys] at *
  by_cases hI : otruthy (objGet fs "installed") = true
  · refine ⟨objSet fs "installed_agents"
        (jarr (if jsIncludesStr ys a then ys else ys ++ [jstr a])), ?_, ?_, ?_, ?_, ?_⟩
    · rw [heq]; simp [hI]
    · simp [objGet_objSet_self]
    · intro k hk _ _
      exact objGet_objSet_ne fs "installed_agents" k _ hk
    · intro _
      refine ⟨hagets _, objGet_objSet_ne fs "installed_agents"
        "installation_date" _ (by decide)⟩
    · intro hcontra; rw [hI] at hcontra; cases hcontra
  · have hI' : otruthy (objGet fs "installed") = false :=
      Bool.of_not_eq_true hI
    refine ⟨objSet (objSet (objSet fs "installed_agents"
        (jarr (if jsIncludesStr ys a then ys else ys ++ [jstr a])))
        "installed" (jbool true)) "installation_date" (jstr now),
      ?_, ?_, ?_, ?_, ?_⟩
    · rw [heq]; simp [hI']
    · rw [objGet_objSet_ne _ _ _ _ (by decide),
        objGet_objSet_ne _ _ _ _ (by decide), objGet_objSet_self]
    · intro k hk₁ hk₂ hk₃
      exact objGet_set_ledger_keys fs _ _ _ k hk₁ hk₂ hk₃
    · intro hcontra; rw [hI'] at hcontra; cases hcontra
    · intro _
      refine ⟨?_, objGet_objSet_self _ _ _⟩
      rw [objGet_objSet_ne _ _ _ _ (by decide), objGet_objSet_self]

/-- Field-level description of the `installed = false` ledger mutation on a
record whose `installed_agents` is absent or an array. -/
theorem markUninstalled_fields (fs : List (String × Jv)) (a : String)
    (hA : objGet fs "installed_agents" = none
        ∨ ∃ xs, objGet fs "installed_agents" = some (jarr xs)) :
    ∃ fs', markUninstalledRecord (jobj fs) a = jobj fs'
      ∧ objGet fs' "installed_agents"
          = (if objGet fs "installed_agents" = none then none
             else some (jarr ((agentsList fs).filter (fun e => e ≠ jstr a))))
      ∧ (∀ k, k ≠ "installed_agents" → k ≠ "installed" →
          k ≠ "installation_date" → objGet fs' k = objGet fs k)
      ∧ ((∃ xs, objGet fs "installed_agents" = some (jarr xs)) →
          (agentsList fs).filter (fun e => e ≠ jstr a) = [] →
          objGet fs' "installed" = some (jbool false)
          ∧ objGet fs' "installation_date" = some jnull)
      ∧ ((agentsList fs).filter (fun e => e ≠ jstr a) ≠ [] →
          objGet fs' "installed" = objGet fs "installed"
          ∧ objGet fs' "installation_date" = objGet fs "installation_date")
      ∧ (objGet fs "installed_agents" = none → fs' = fs) := by
  rcases hA with hA | ⟨xs, hA⟩
  · have hags : agentsList fs = [] := by simp [agentsList, hA]
    refine ⟨fs, ?_, ?_, ?_, ?_, ?_, ?_⟩
    · simp [markUninstalledRecord, hA]
    · simp [hA]
    · intro k _ _ _; rfl
    · rintro ⟨xs, hxs⟩ _
      rw [hA] at hxs; cases hxs
    · intro _; exact ⟨rfl, rfl⟩
    · intro _; rfl
  · have hags : agentsList fs = xs := by simp [agentsList, hA]
    have hne : ¬ objGet fs "installed_agents" = none := by simp [hA]
    by_cases hemp : xs.filter (fun e => e ≠ jstr a) = []
    · refine ⟨objSet (objSet (objSet fs "installed_agents"
          (jarr (xs.filter (fun e => e ≠ jstr a)))) "installed" (jbool false))
          "installation_date" jnull, ?_, ?_, ?_, ?_, ?_, ?_⟩
      · simp only [markUninstalledRecord, hA]
        rw [if_pos (by simpa [List.length_eq_zero] using hemp)]
      · rw [if_neg hne, hags]
        rw [objGet_objSet_ne _ _ _ _ (by decide),
          objGet_objSet_ne _ _ _ _ (by decide), objGet_objSet_self]
      · intro k hk₁ hk₂ hk₃
        exact objGet_set_ledger_keys fs _ _ _ k hk₁ hk₂ hk₃
      · intro _ _
        refine ⟨?_, objGet_objSet_self _ _ _⟩
        rw [objGet_objSet_ne _ _ _ _ (by decide), objGet_objSet_self]
      · intro hcontra; rw [hags] at hcontra; exact absurd hemp hcontra
      · intro hcontra; rw [hA] at hcontra; cases hcontra
    · refine ⟨objSet fs "installed_agents"
          (jarr (xs.filter (fun e => e ≠ jstr a))), ?_, ?_, ?_, ?_, ?_, ?_⟩
      · simp only [markUninstalledRecord, hA]
        rw [if_neg (by simpa [List.length_eq_zero] using hemp)]
      · rw [if_neg hne, hags, objGet_objSet_self]
      · intro k hk₁ _ _
        exact objGet_objSet_ne fs "installed_agents" k _ hk₁
      · rintro _ habs
        rw [hags] at habs; exact absurd habs hemp
      · intro _
        exact ⟨objGet_objSet_ne _ _ _ _ (by decide),
          objGet_objSet_ne _ _ _ _ (by decide)⟩
      · intro hcontra; rw [hA] at hcontra; cases hcontra

/-- The agent entries of a well-formed record are absent or an array. -/
theorem recordWF_agents_shape (fs : List (String × Jv))
    (hwf : recordWF (jobj fs)) :
    objGet fs "installed_agents" = none
      ∨ ∃ xs, objGet fs "installed_agents" = some (jarr xs) := by
  obtain ⟨fs', heq, _, hA, _⟩ := hwf
  cases heq
  revert hA
  cases h : objGet fs "installed_agents" with
  | none => exact fun _ => Or.inl rfl
  | some v =>
      cases v with
      | jarr xs => exact fun _ => Or.inr ⟨xs, rfl⟩
      | jnull => exact fun hA => hA.elim
      | jbool b => exact fun hA => hA.elim
      | jnum n => exact fun hA => hA.elim
      | jstr s => exact fun hA => hA.elim
      | jobj gs => exact fun hA => hA.elim

/-- Every element of a well-formed record's agents list is a string. -/
theorem recordWF_agents_elems (fs : List (String × Jv))
    (hwf : recordWF (jobj fs)) :
    ∀ e ∈ agentsList fs, ∃ s, e = jstr s := by
  obtain ⟨fs', heq, _, hA, _⟩ := hwf
  cases heq
  revert hA
  cases h : objGet fs "installed_agents" with
  | none => intro _; simp [agentsList, h]
  | some v =>
      cases v with
      | jarr xs => intro hA; simpa [agentsList, h] using hA
      | jnull => exact fun hA => hA.elim
      | jbool b => exact fun hA => hA.elim
      | jnum n => exact fun hA => hA.elim
      | jstr s => exact fun hA => hA.elim
      | jobj gs => exact fun hA => hA.elim

/-- `markInstalledRecord` preserves shape well-formedness and the ledger
invariant. -/
theorem markInstalled_preserves (m : Jv) (a now : String)
    (hwf : recordWF m) (hinv : recordInv m) :
    recordWF (markInstalledRecord m a now)
      ∧ recordInv (markInstalledRecord m a now) := by
  obtain ⟨fs, rfl, hI, hA, hD⟩ := hwf
  have helems := recordWF_agents_elems fs ⟨fs, rfl, hI, hA, hD⟩
  have hA' := recordWF_agents_shape fs ⟨fs, rfl, hI, hA, hD⟩
  obtain ⟨fs', heq, hags, hother, htr, hfl⟩ := markInstalled_fields fs a now hA'
  have hinv' := hinv fs rfl
  rw [heq]
  set L := (if jsIncludesStr (agentsList fs) a = true
      then agentsList fs else agentsList fs ++ [jstr a]) with hL
  have hLelems : ∀ e ∈ L, ∃ s, e = jstr s := by
    rw [hL]
    by_cases hin : jsIncludesStr (agentsList fs) a = true
    · simpa [hin] using helems
    · simp only [hin, if_neg, if_false]
      intro e he
      rcases List.mem_append.1 he with he | he
      · exact helems e he
      · exact ⟨a, List.mem_singleton.1 he⟩
  have hLne : L ≠ [] := by
    rw [hL]
    by_cases hin : jsIncludesStr (agentsList fs) a = true
    · simp only [hin, if_true]
      intro hnil
      rw [hnil] at hin
      simp [jsIncludesStr] at hin
    · simp [hin]
  have hinstalled' : otruthy (objGet fs' "installed") = true := by
    by_cases hIt : otruthy (objGet fs "installed") = true
    · rw [(htr hIt).1]; exact hIt
    · rw [(hfl (Bool.of_not_eq_true hIt)).1]; simp [otruthy, truthy]
  have hdate' : dateNonNull fs' = true := by
    by_cases hIt : otruthy (objGet fs "installed") = true
    · have := (htr hIt).2
      simp only [dateNonNull, this]
      have hd := hinv'.2
      rw [hIt] at hd
      simpa [dateNonNull] using hd
    · have := (hfl (Bool.of_not_eq_true hIt)).2
      simp [dateNonNull, this]
  constructor
  · refine ⟨fs', rfl, ?_, ?_, ?_⟩
    · by_cases hIt : otruthy (objGet fs "installed") = true
      · rw [(htr hIt).1]; exact hI
      · rw [(hfl (Bool.of_not_eq_true hIt)).1]; exact trivial
    · rw [hags]; exact hLelems
    · by_cases hIt : otruthy (objGet fs "installed") = true
      · rw [(htr hIt).2]; exact hD
      · rw [(hfl (Bool.of_not_eq_true hIt)).2]; exact trivial
  · intro gs hgs
    cases hgs
    have hagl : agentsList fs' = L := by simp [agentsList, hags]
    refine ⟨?_, ?_⟩
    · rw [hinstalled', hagl]
      simp [List.isEmpty_iff, hLne]
    · rw [hdate', hinstalled']

/-- `markUninstalledRecord` preserves shape well-formedness and the ledger
invariant. -/
theorem markUninstalled_preserves (m : Jv) (a : String)
    (hwf : recordWF m) (hinv : recordInv m) :
    recordWF (markUninstalledRecord m a)
      ∧ recordInv (markUninstalledRecord m a) := by
  obtain ⟨fs, rfl, hI, hA, hD⟩ := hwf
  have helems := recordWF_agents_elems fs ⟨fs, rfl, hI, hA, hD⟩
  have hA' := recordWF_agents_shape fs ⟨fs, rfl, hI, hA, hD⟩
  obtain ⟨fs', heq, hags, hother, hemp, hkeep, hnone⟩ :=
    markUninstalled_fields fs a hA'
  have hinv' := hinv fs rfl
  rw [heq]
  rcases hA' with hn | ⟨xs, hxs⟩
  · -- agents absent: the record is untouched
    rw [hnone hn]
    exact ⟨⟨fs, rfl, hI, hA, hD⟩, hinv⟩
  · have hagsx : agentsList fs = xs := by simp [agentsList, hxs]
    have hne : ¬ objGet fs "installed_agents" = none := by simp [hxs]
    have hags' : objGet fs' "installed_agents"
        = some (jarr (xs.filter (fun e => e ≠ jstr a))) := by
      rw [hags, if_neg hne, hagsx]
    have hagl : agentsList fs' = xs.filter (fun e => e ≠ jstr a) := by
      simp [agentsList, hags']
    by_cases hflt : xs.filter (fun e => e ≠ jstr a) = []
    · have he := hemp ⟨xs, hxs⟩ (by rw [hagsx]; exact hflt)
      constructor
      · refine ⟨fs', rfl, ?_, ?_, ?_⟩
        · rw [he.1]; exact trivial
        · rw [hags']
          intro e hmem
          exact helems e (by
            rw [hagsx]
            exact List.mem_of_mem_filter hmem)
        · rw [he.2]; exact trivial
      · intro gs hgs
        cases hgs
        refine ⟨?_, ?_⟩
        · rw [he.1, hagl, hflt]
          simp [otruthy, truthy]
        · rw [he.1]
          simp [dateNonNull, he.2, otruthy, truthy]
    · have hk := hkeep (by rw [hagsx]; exact hflt)
      have hxs_ne : xs ≠ [] := by
        intro hnil
        rw [hnil] at hflt
        simp at hflt
      have hIt : otruthy (objGet fs "installed") = true := by
        have h1 := hinv'.1
        rw [hagsx] at h1
        have h2 : xs.isEmpty = false := by
          cases xs with
          | nil => exact absurd rfl hxs_ne
          | cons y ys => rfl
        rw [h2] at h1
        simpa using h1
      constructor
      · refine ⟨fs', rfl, ?_, ?_, ?_⟩
        · rw [hk.1]; exact hI
        · rw [hags']
          intro e hmem
          exact helems e (by
            rw [hagsx]
            exact List.mem_of_mem_filter hmem)
        · rw [hk.2]; exact hD
      · intro gs hgs
        cases hgs
        refine ⟨?_, ?_⟩
        · rw [hk.1, hIt, hagl]
          have h2 : (xs.filter (fun e => e ≠ jstr a)).isEmpty = false := by
            cases hfe : xs.filter (fun e => e ≠ jstr a) with
            | nil => exact absurd hfe hflt
            | cons y ys => rfl
          rw [h2]
          rfl
        · have hdn : dateNonNull fs' = dateNonNull fs := by
            simp [dateNonNull, hk.2]
          rw [hdn, hk.1, hinv'.2]

/-- A member of the updated `mcps` list is either an original record or
the marked version of an original record. -/
theorem mem_updateMcpList (mcps : List Jv) (mcpId agentId : String)
    (installed : Bool) (now : String) (m : Jv)
    (hm : m ∈ updateMcpList mcps mcpId agentId installed now) :
    m ∈ mcps
      ∨ ∃ m₀ ∈ mcps, m = (if installed then markInstalledRecord m₀ agentId now
          else markUninstalledRecord m₀ agentId) := by
  induction mcps with
  | nil => simp [updateMcpList] at hm
  | cons m₁ rest ih =>
      by_cases h1 : idMatches m₁ mcpId = true
      · rw [updateMcpList, if_pos h1] at hm
        rcases List.mem_cons.1 hm with hm | hm
        · exact Or.inr ⟨m₁, List.mem_cons_self _ _, hm⟩
        · exact Or.inl (List.mem_cons_of_mem _ hm)
      · rw [updateMcpList, if_neg h1] at hm
        rcases List.mem_cons.1 hm with hm | hm
        · exact Or.inl (by rw [hm]; exact List.mem_cons_self _ _)
        · rcases ih hm with h | ⟨m₀, hmem, hval⟩
          · exact Or.inl (List.mem_cons_of_mem _ h)
          · exact Or.inr ⟨m₀, List.mem_cons_of_mem _ hmem, hval⟩

/-- Re-loading a saved `{mcps: list}` object yields the list back. -/
theorem loadSync_save (l : List Jv) :
    loadMcpRegistrySync (saveMcpRegistry (jobj [("mcps", jarr l)])) = l := by
  simp [loadMcpRegistrySync, saveMcpRegistry, truthy, isObjectType, jget,
    objGet]

/-- C6: on a registry whose records are well-formed and satisfy
`installed == (installed_agents non-empty)` and `installation_date
non-null iff installed`, both ledger mutations preserve that invariant;
moreover marking installed adds the agent id (a no-op when already
present) and, on a record with no installed agents, sets
`installed = true` and stamps the date, while marking uninstalled removes
the agent id (the result never contains it) and, when a non-empty set
becomes empty, sets `installed = false` and nulls the date. -/
theorem ledger_preserves_invariant (regFile : FileState)
    (mcpId agentId now : String) (installed : Bool)
    (hwf : ∀ m ∈ loadMcpRegistrySync regFile, recordWF m ∧ recordInv m) :
    (∀ m ∈ loadMcpRegistrySync
        (updateMcpInstallationStatus regFile mcpId agentId installed now),
      recordWF m ∧ recordInv m)
    ∧ (∀ fs, recordWF (jobj fs) → recordInv (jobj fs) → ∀ b nw, ∃ fs',
        markInstalledRecord (jobj fs) b nw = jobj fs'
        ∧ jsIncludesStr (agentsList fs') b = true
        ∧ (jsIncludesStr (agentsList fs) b = true →
            agentsList fs' = agentsList fs)
        ∧ (agentsList fs = [] →
            objGet fs' "installed" = some (jbool true)
            ∧ objGet fs' "installation_date" = some (jstr nw)))
    ∧ (∀ fs, recordWF (jobj fs) → recordInv (jobj fs) → ∀ b, ∃ fs',
        markUninstalledRecord (jobj fs) b = jobj fs'
        ∧ jsIncludesStr (agentsList fs') b = false
        ∧ agentsList fs' = (agentsList fs).filter (fun e => e ≠ jstr b)
        ∧ ((agentsList fs).filter (fun e => e ≠ jstr b) = [] ∧
            agentsList fs ≠ [] →
            objGet fs' "installed" = some (jbool false)
            ∧ objGet fs' "installation_date" = some jnull)) := by
  refine ⟨?_, ?_, ?_⟩
  · -- invariant preservation through the persisted update
    intro m hm
    by_cases hfound : (loadMcpRegistrySync regFile).any
        (fun m => idMatches m mcpId) = true
    · rw [updateMcpInstallationStatus, if_pos hfound, loadSync_save] at hm
      rcases mem_updateMcpList _ _ _ _ _ _ hm with h | ⟨m₀, hmem, hval⟩
      · exact hwf m h
      · obtain ⟨h₀wf, h₀inv⟩ := hwf m₀ hmem
        cases installed with
        | true =>
            rw [hval]
            simpa using markInstalled_preserves m₀ agentId now h₀wf h₀inv
        | false =>
            rw [hval]
            simpa using markUninstalled_preserves m₀ agentId h₀wf h₀inv
    · rw [updateMcpInstallationStatus, if_neg hfound] at hm
      exact hwf m hm
  · -- markInstalled behaviour
    intro fs hwfr hinvr b nw
    have hA' := recordWF_agents_shape fs hwfr
    obtain ⟨fs', heq, hags, _, htr, hfl⟩ := markInstalled_fields fs b nw hA'
    have hagl : agentsList fs'
        = (if jsIncludesStr (agentsList fs) b = true
            then agentsList fs else agentsList fs ++ [jstr b]) := by
      simp [agentsList, hags]
    refine ⟨fs', heq, ?_, ?_, ?_⟩
    · rw [hagl]
      by_cases hin : jsIncludesStr (agentsList fs) b = true
      · rw [if_pos hin]; exact hin
      · rw [if_neg hin]
        simp [jsIncludesStr, List.any_append]
    · intro hin
      rw [hagl, if_pos hin]
    · intro hempty
      have hIf : otruthy (objGet fs "installed") = false := by
        have := (hinvr fs rfl).1
        rw [hempty] at this
        simpa using this
      exact hfl hIf
  · -- markUninstalled behaviour
    intro fs hwfr hinvr b
    have hA' := recordWF_agents_shape fs hwfr
    obtain ⟨fs', heq, hags, _, hemp, _, hnone⟩ := markUninstalled_fields fs b hA'
    rcases hA' with hn | ⟨xs, hxs⟩
    · have hags0 : agentsList fs = [] := by simp [agentsList, hn]
      refine ⟨fs', heq, ?_, ?_, ?_⟩
      · have := hnone hn
        rw [this, hags0]
        simp [jsIncludesStr]
      · have := hnone hn
        rw [this, hags0]
        simp
      · rintro ⟨_, hcontra⟩
        exact absurd hags0 hcontra
    · have hagsx : agentsList fs = xs := by simp [agentsList, hxs]
      have hne : ¬ objGet fs "installed_agents" = none := by simp [hxs]
      have hagl : agentsList fs'
          = (agentsList fs).filter (fun e => e ≠ jstr b) := by
        simp only [agentsList, hags, if_neg hne]
      refine ⟨fs', heq, ?_, hagl, ?_⟩
      · rw [hagl]
        simp only [jsIncludesStr, List.any_eq_false]
        intro e hmem
        rw [List.mem_filter] at hmem
        simpa using hmem.2
      · rintro ⟨hflt, _⟩
        exact hemp ⟨xs, hxs⟩ hflt

theorem install_preserves_unrelated_config_witness :
    jget (addServerConfig (some (Except.ok (jobj c10Fields))) "p" "npx y"
        (jobj []) "cursor") "theme" = some (jstr "dark")
    ∧ jget (addServerConfig (some (Except.ok (jobj c10Fields))) "p" "npx y"
        (jobj []) "cursor") "mcpServers"
      = some (jobj (objSet c10Ms "p" (cmdEntry "npx y" (jobj []))))
    ∧ addServerConfig none "p" "npx y" (jobj []) "cursor"
      = jobj [("mcpServers", jobj [("p", cmdEntry "npx y" (jobj []))])] :=
  ⟨(install_preserves_unrelated_config c10Fields "p" "npx y" (jobj [])
      "cursor").1 "theme" (by decide),
   ((install_preserves_unrelated_config c10Fields "p" "npx y" (jobj [])
      "cursor").2.1 c10Ms (by decide)).1,
   (install_preserves_unrelated_config c10Fields "p" "npx y" (jobj [])
      "cursor").2.2.2 none (Or.inl rfl)⟩

theorem ledger_preserves_invariant_witness :
    recordWF (markInstalledRecord c6Rec "agentX" "T")
      ∧ recordInv (markInstalledRecord c6Rec "agentX" "T") :=
  (ledger_preserves_invariant c6Cache "p" "agentX" "T" true
    (by
      intro m hm
      have hl : loadMcpRegistrySync c6Cache = [c6Rec] := by decide
      rw [hl] at hm
      have hmeq : m = c6Rec := List.mem_singleton.1 hm
      subst hmeq
      refine ⟨⟨[("id", jstr "p")], rfl, trivial, trivial, trivial⟩, ?_⟩
      intro gs hgs
      cases hgs
      exact ⟨rfl, rfl⟩)).1
    (markInstalledRecord c6Rec "agentX" "T") (by decide)

/-! ## C2 — missing required env vars -/

/-- C2 counterexample: with a successful remote fetch, the install
endpoint's registry load persists the fetched catalog to the cache file
before the env validation runs; the request still rejects with the
missing-variables payload and leaves the agent config alone, but the
registry cache file has changed — contradicting the claim that the
rejection precedes every file mutation. -/
theorem install_reject_can_rewrite_cache :
    (installEndpoint
        (SysState.mk (some (Except.ok (jobj [("mcps", jarr [])]))) none)
        true "p" none "cursor"
        (Except.ok (jobj [("mcps", jarr [c2Mcp])])) "T").1
      = InstallResult.missingEnv [("K", c2Decl)]
    ∧ ((installEndpoint
        (SysState.mk (some (Except.ok (jobj [("mcps", jarr [])]))) none)
        true "p" none "cursor"
        (Except.ok (jobj [("mcps", jarr [c2Mcp])])) "T").2).agentCfg = none
    ∧ ((installEndpoint
        (SysState.mk (some (Except.ok (jobj [("mcps", jarr [])]))) none)
        true "p" none "cursor"
        (Except.ok (jobj [("mcps", jarr [c2Mcp])])) "T").2).regFile
      ≠ some (Except.ok (jobj [("mcps", jarr [])])) := by
  decide

/-- C2 (amended): when a required env key has no, an empty, or a
whitespace-only value, install rejects with the
missing-required-environment-variables payload, which contains exactly the
required-and-blank keys with their declared metadata, and the target agent
config file is untouched; the registry cache file is also untouched
provided the registry load did not itself refresh it (a successful remote
fetch overwrites the cache with the fetched catalog during loading,
before and independently of the validation). -/
theorem install_missing_env_rejects (st : SysState)
    (mcpId agentId now : String) (envVars : EnvVars) (fetch : FetchResult)
    (mcp : Jv) (key : String) (decl : Jv)
    (hfetch : fetchedCatalog fetch = none)
    (hfind : findMcp (loadMcpRegistrySync st.regFile) mcpId = some mcp)
    (hdecl : (key, decl) ∈ mcpEnvDecls mcp)
    (hreq : otruthy (jget decl "required") = true)
    (hblank : envMissing envVars key = true) :
    installEndpoint st true mcpId envVars agentId fetch now
      = (InstallResult.missingEnv
          (collectMissingEnv (mcpEnvDecls mcp) envVars), st)
    ∧ (key, decl) ∈ collectMissingEnv (mcpEnvDecls mcp) envVars
    ∧ (∀ k d, (k, d) ∈ mcpEnvDecls mcp → otruthy (jget d "required") = true →
        envMissing envVars k = true →
        (k, d) ∈ collectMissingEnv (mcpEnvDecls mcp) envVars)
    ∧ (∀ k d, (k, d) ∈ collectMissingEnv (mcpEnvDecls mcp) envVars →
        (k, d) ∈ mcpEnvDecls mcp ∧ otruthy (jget d "required") = true
          ∧ envMissing envVars k = true) := by
  have hmem : (key, decl) ∈ collectMissingEnv (mcpEnvDecls mcp) envVars := by
    rw [collectMissingEnv, List.mem_filter]
    exact ⟨hdecl, by simp [hreq, hblank]⟩
  have hne : collectMissingEnv (mcpEnvDecls mcp) envVars ≠ [] :=
    List.ne_nil_of_mem hmem
  refine ⟨?_, hmem, ?_, ?_⟩
  · simp only [installEndpoint, loadMcpRegistry, hfetch, jget, objGet,
      if_pos rfl, if_true]
    rw [hfind]
    simp [hne]
  · intro k d hd hr hb
    rw [collectMissingEnv, List.mem_filter]
    exact ⟨hd, by simp [hr, hb]⟩
  · intro k d hd
    rw [collectMissingEnv, List.mem_filter] at hd
    have h2 := hd.2
    simp only [Bool.and_eq_true] at h2
    exact ⟨hd.1, h2.1, h2.2⟩

theorem install_missing_env_rejects_witness :
    installEndpoint
        (SysState.mk (some (Except.ok (jobj [("mcps", jarr [c2Mcp])]))) none)
        true "p" none "cursor" (Except.error ()) "T"
      = (InstallResult.missingEnv [("K", c2Decl)],
         SysState.mk (some (Except.ok (jobj [("mcps", jarr [c2Mcp])]))) none) :=
  (install_missing_env_rejects
    (SysState.mk (some (Except.ok (jobj [("mcps", jarr [c2Mcp])]))) none)
    "p" "cursor" "T" none (Except.error ()) c2Mcp "K" c2Decl
    (by decide) (by decide) (by decide) (by decide) (by decide)).1

/-! ## C5 — installing twice equals installing once -/

/-- The ledger mutation touches only the three installation-state keys of
the record: `id`, `command`, `env`, and every other property are
untouched. -/
theorem markInstalled_other_keys (m : Jv) (a now : String) (k : String)
    (h1 : k ≠ "installed_agents") (h2 : k ≠ "installed")
    (h3 : k ≠ "installation_date") :
    jget (markInstalledRecord m a now) k = jget m k := by
  cases m with
  | jobj fs =>
      simp only [markInstalledRecord]
      set fs1 := (if !otruthy (objGet fs "installed_agents")
          then objSet fs "installed_agents" (jarr []) else fs) with hfs1
      have e1 : objGet fs1 k = objGet fs k := by
        rw [hfs1]; split
        · exact objGet_objSet_ne fs _ k _ h1
        · rfl
      cases hm : objGet fs1 "installed_agents" with
      | some mv =>
          cases mv
          case jarr xs =>
            simp only [jget]
            split <;> split <;>
              first
                | (rw [objGet_set_ledger_keys fs1 _ _ _ k h1 h2 h3]; exact e1)
                | (rw [objGet_objSet_ne fs1 _ k _ h1]; exact e1)
          all_goals simp only [jget]; exact e1
      | none => simp only [jget]; exact e1
  | jnull => rfl
  | jbool b => rfl
  | jnum n => rfl
  | jstr s => rfl
  | jarr xs => rfl

/-- The ledger mutation does not change which id a record matches. -/
theorem idMatches_markInstalled (m : Jv) (a now i : String) :
    idMatches (markInstalledRecord m a now) i = idMatches m i := by
  rw [idMatches, idMatches,
    markInstalled_other_keys m a now "id" (by decide) (by decide) (by decide)]

/-- The ledger mutation does not change a record's declared env schema. -/
theorem mcpEnvDecls_markInstalled (m : Jv) (a now : String) :
    mcpEnvDecls (markInstalledRecord m a now) = mcpEnvDecls m := by
  rw [mcpEnvDecls, mcpEnvDecls,
    markInstalled_other_keys m a now "env" (by decide) (by decide) (by decide)]

/-- The ledger mutation does not change a record's command. -/
theorem command_markInstalled (m : Jv) (a now : String) :
    jget (markInstalledRecord m a now) "command" = jget m "command" :=
  markInstalled_other_keys m a now "command" (by decide) (by decide) (by decide)

/-- A found record is a member and matches the id, and `any` agrees. -/
theorem findMcp_facts (mcps : List Jv) (i : String) (m : Jv)
    (h : findMcp mcps i = some m) :
    m ∈ mcps ∧ idMatches m i = true
      ∧ mcps.any (fun m' => idMatches m' i) = true := by
  have hmem := List.mem_of_find?_eq_some h
  have hmatch := List.find?_some h
  exact ⟨hmem, hmatch, List.any_eq_true.2 ⟨m, hmem, hmatch⟩⟩

/-- Updating the list rewrites the found record in place: a later lookup
finds its marked version. -/
theorem findMcp_updateMcpList (mcps : List Jv) (i a now : String) (m : Jv)
    (h : findMcp mcps i = some m) :
    findMcp (updateMcpList mcps i a true now) i
      = some (markInstalledRecord m a now) := by
  induction mcps with
  | nil => simp [findMcp] at h
  | cons m₁ rest ih =>
      by_cases h1 : idMatches m₁ i = true
      · have hm : m = m₁ := by
          rw [findMcp, List.find?] at h
          rw [h1] at h
          exact (Option.some.inj h).symm
        subst hm
        rw [updateMcpList, if_pos h1]
        simp [findMcp, List.find?_cons, idMatches_markInstalled, h1]
      · rw [updateMcpList, if_neg h1]
        rw [findMcp, List.find?_cons_of_neg _ (by simpa using h1)]
        rw [findMcp, List.find?_cons_of_neg _ (by simpa using h1)] at h
        exact ih h

/-- Normalization is idempotent. -/
theorem ensure_idem (x : Jv) (A : String) :
    ensureMcpServersInConfig (ensureMcpServersInConfig x A) A
      = ensureMcpServersInConfig x A := by
  by_cases hx : (!truthy x || !isObjectType x) = true
  · have h1 : ensureMcpServersInConfig x A = jobj [("mcpServers", jobj [])] := by
      cases x with
      | jnull => simp [ensureMcpServersInConfig, truthy, isObjectType]
      | jbool b => simp [ensureMcpServersInConfig, truthy, isObjectType]
      | jnum n => simp [ensureMcpServersInConfig, truthy, isObjectType]
      | jstr s => simp [ensureMcpServersInConfig, truthy, isObjectType]
      | jarr xs => exact absurd hx (by simp [truthy, isObjectType])
      | jobj fields => exact absurd hx (by simp [truthy, isObjectType])
    rw [h1]
    exact ensure_of_obj_mcpServers _ [] A (by simp [objGet])
  · cases x with
    | jobj fields =>
        by_cases hk : A ∈ knownAgentIds
        · by_cases hr : mcpServersNeedsReset (objGet fields "mcpServers") = true
          · have h1 : ensureMcpServersInConfig (jobj fields) A
                = jobj (objSet fields "mcpServers" (jobj [])) := by
              simp [ensureMcpServersInConfig, truthy, isObjectType, hk, hr]
            rw [h1]
            exact ensure_of_obj_mcpServers _ [] A (objGet_objSet_self _ _ _)
          · have h1 : ensureMcpServersInConfig (jobj fields) A = jobj fields := by
              simp [ensureMcpServersInConfig, truthy, isObjectType, hk, hr]
            rw [h1]; exact h1
        · by_cases ho : otruthy (objGet fields "mcpServers") = true
          · have h1 : ensureMcpServersInConfig (jobj fields) A = jobj fields := by
              simp [ensureMcpServersInConfig, truthy, isObjectType, hk, ho]
            rw [h1]; exact h1
          · have h1 : ensureMcpServersInConfig (jobj fields) A
                = jobj (objSet fields "mcpServers" (jobj [])) := by
              simp [ensureMcpServersInConfig, truthy, isObjectType, hk, ho]
            rw [h1]
            exact ensure_of_obj_mcpServers _ [] A (objGet_objSet_self _ _ _)
    | jarr xs =>
        have h1 : ensureMcpServersInConfig (jarr xs) A = jarr xs := by
          simp [ensureMcpServersInConfig, Bool.of_not_eq_true hx]
        rw [h1]; exact h1
    | jnull => exact absurd (by simp [truthy, isObjectType]) hx
    | jbool b => exact absurd (by simp [truthy, isObjectType]) hx
    | jnum n => exact absurd (by simp [truthy, isObjectType]) hx
    | jstr s => exact absurd (by simp [truthy, isObjectType]) hx

/-- Rewriting the same entry twice equals rewriting it once. -/
theorem addServerConfig_idem (prev : FileState) (P C : String) (E : Jv)
    (A : String) :
    addServerConfig (some (Except.ok (addServerConfig prev P C E A))) P C E A
      = addServerConfig prev P C E A := by
  show setServerEntry (ensureMcpServersInConfig
      (setServerEntry (ensureMcpServersInConfig (readJson prev) A) P
        (cmdEntry C E)) A) P (cmdEntry C E)
    = setServerEntry (ensureMcpServersInConfig (readJson prev) A) P
        (cmdEntry C E)
  set Y := ensureMcpServersInConfig (readJson prev) A with hY
  have hidem : ensureMcpServersInConfig Y A = Y := by
    rw [hY]; exact ensure_idem _ A
  cases hYv : Y with
  | jobj fields =>
      cases hm : objGet fields "mcpServers" with
      | some mv =>
          cases mv
          case jobj ms =>
            have hset : setServerEntry (jobj fields) P (cmdEntry C E)
                = jobj (objSet fields "mcpServers"
                    (jobj (objSet ms P (cmdEntry C E)))) := by
              simp [setServerEntry, hm]
            rw [hset]
            have hens := ensure_of_obj_mcpServers _ _ A
              (objGet_objSet_self fields "mcpServers"
                (jobj (objSet ms P (cmdEntry C E))))
            rw [hens]
            simp [setServerEntry, objGet_objSet_self, objSet_objSet_same]
          all_goals
            (have hset : setServerEntry (jobj fields) P (cmdEntry C E)
                = jobj fields := by simp [setServerEntry, hm]
             rw [hset, ← hYv, hidem, hYv, hset])
      | none =>
          have hset : setServerEntry (jobj fields) P (cmdEntry C E)
              = jobj fields := by simp [setServerEntry, hm]
          rw [hset, ← hYv, hidem, hYv, hset]
  | jnull =>
      have hset : setServerEntry jnull P (cmdEntry C E) = jnull := rfl
      rw [hset, ← hYv, hidem, hYv, hset]
  | jbool b =>
      have hset : setServerEntry (jbool b) P (cmdEntry C E) = jbool b := rfl
      rw [hset, ← hYv, hidem, hYv, hset]
  | jnum n =>
      have hset : setServerEntry (jnum n) P (cmdEntry C E) = jnum n := rfl
      rw [hset, ← hYv, hidem, hYv, hset]
  | jstr s =>
      have hset : setServerEntry (jstr s) P (cmdEntry C E) = jstr s := rfl
      rw [hset, ← hYv, hidem, hYv, hset]
  | jarr xs =>
      have hset : setServerEntry (jarr xs) P (cmdEntry C E) = jarr xs := rfl
      rw [hset, ← hYv, hidem, hYv, hset]

/-- Pushing the agent id gives a list containing it exactly once, provided
it occurred at most once before. -/
theorem count_push_agent (ys : List Jv) (a : String)
    (h : ys.count (jstr a) ≤ 1) :
    (if jsIncludesStr ys a = true then ys else ys ++ [jstr a]).count (jstr a)
      = 1 := by
  by_cases hin : jsIncludesStr ys a = true
  · rw [if_pos hin]
    have hmem : jstr a ∈ ys := by
      rw [jsIncludesStr, List.any_eq_true] at hin
      obtain ⟨e, hmem, he⟩ := hin
      simpa [decide_eq_true_eq] using (by
        have : e = jstr a := by simpa using he
        rw [this] at hmem; exact hmem)
    have := List.count_pos_iff.2 hmem
    omega
  · rw [if_neg hin]
    have hnot : jstr a ∉ ys := by
      intro hmem
      exact hin (by rw [jsIncludesStr, List.any_eq_true]; exact ⟨_, hmem, by simp⟩)
    rw [List.count_append]
    rw [List.count_eq_zero.2 hnot]
    simp

/-- The rewrite stores the split command entry under `P` whenever the
normalized config exposes `mcpServers` as an object. -/
theorem addServerConfig_sets_entry (prev : FileState) (P C : String)
    (E : Jv) (A : String) (fields ms : List (String × Jv))
    (h1 : ensureMcpServersInConfig (readJson prev) A = jobj fields)
    (h2 : objGet fields "mcpServers" = some (jobj ms)) :
    jget (addServerConfig prev P C E A) "mcpServers"
      = some (jobj (objSet ms P (cmdEntry C E))) := by
  simp [addServerConfig, setServerEntry, h1, h2, jget, objGet_objSet_self,
    cmdEntry]

/-- With a failing fetch the catalog served is the local cache. -/
theorem effectiveMcps_none (fetch : FetchResult) (R : FileState)
    (hf : fetchedCatalog fetch = none) :
    effectiveMcps fetch R = loadMcpRegistrySync R := by
  simp [effectiveMcps, loadMcpRegistry, hf, jget, objGet]

/-- With a successful fetch the catalog served ignores the cache. -/
theorem effectiveMcps_some (fetch : FetchResult) (v : Jv) (R : FileState)
    (hf : fetchedCatalog fetch = some v) :
    effectiveMcps fetch R
      = (match jget v "mcps" with | some (jarr xs) => xs | _ => []) := by
  simp [effectiveMcps, loadMcpRegistry, hf]

/-- A value the fetch guard accepted is an object (its `mcps` property is
truthy, and only objects have properties). -/
theorem fetchedCatalog_is_obj (fetch : FetchResult) (v : Jv)
    (hf : fetchedCatalog fetch = some v) : ∃ gv, v = jobj gv := by
  cases fetch with
  | error u => simp [fetchedCatalog] at hf
  | ok w =>
      simp only [fetchedCatalog] at hf
      split at hf
      · cases hf
        next hcond =>
          cases v with
          | jobj gv => exact ⟨gv, rfl⟩
          | jnull => simp [jget, otruthy] at hcond
          | jbool b => simp [jget, otruthy] at hcond
          | jnum n => simp [jget, otruthy] at hcond
          | jstr s => simp [jget, otruthy] at hcond
          | jarr xs => simp [jget, otruthy] at hcond
      · cases hf

/-- Reloading a persisted fetched catalog yields its `mcps` array. -/
theorem loadSync_save_fetched (fetch : FetchResult) (v : Jv)
    (hf : fetchedCatalog fetch = some v) :
    loadMcpRegistrySync (saveMcpRegistry v)
      = (match jget v "mcps" with | some (jarr xs) => xs | _ => []) := by
  obtain ⟨gv, rfl⟩ := fetchedCatalog_is_obj fetch v hf
  simp [loadMcpRegistrySync, saveMcpRegistry, truthy, isObjectType]

/-- The mutation persists the updated list once the id is found. -/
theorem updateStatus_found (regFile : FileState) (mcpId agentId : String)
    (installed : Bool) (now : String)
    (hany : (loadMcpRegistrySync regFile).any
      (fun m => idMatches m mcpId) = true) :
    updateMcpInstallationStatus regFile mcpId agentId installed now
      = saveMcpRegistry (jobj [("mcps", jarr (updateMcpList
          (loadMcpRegistrySync regFile) mcpId agentId installed now))]) := by
  simp [updateMcpInstallationStatus, hany]

/-- Reduction of a successful install request. -/
theorem installEndpoint_success (st : SysState) (mcpId agentId : String)
    (envVars : EnvVars) (fetch : FetchResult) (now : String)
    (fsm : List (String × Jv)) (cmd : String)
    (hfind : findMcp (effectiveMcps fetch st.regFile) mcpId = some (jobj fsm))
    (hcmd : objGet fsm "command" = some (jstr cmd))
    (henv : collectMissingEnv (mcpEnvDecls (jobj fsm)) envVars = []) :
    installEndpoint st true mcpId envVars agentId fetch now
      = (InstallResult.installed,
         { regFile := updateMcpInstallationStatus
             (loadMcpRegistry fetch st.regFile).2 mcpId agentId true now,
           agentCfg := addServerToMcpConfig st.agentCfg mcpId cmd
             (envVarsJv envVars) agentId }) := by
  have heff : (match jget (loadMcpRegistry fetch st.regFile).1 "mcps" with
      | some (jarr xs) => xs
      | _ => []) = effectiveMcps fetch st.regFile := rfl
  simp only [installEndpoint, heff]
  rw [hfind]
  simp only [Bool.not_true, Bool.false_eq_true, if_false, henv, jget, hcmd]
  simp

/-- C5: calling install twice in succession with identical arguments (and
the same fetch outcome both times) answers success both times, leaves the
target agent-config file with the same content as a single call — a
single `mcpServers` entry for the plugin — and the same ledger
`installed_agents` for the plugin, containing the agent exactly once. -/
theorem install_twice_equals_once (st : SysState) (mcpId agentId : String)
    (envVars : EnvVars) (fetch : FetchResult) (now1 now2 : String)
    (fsm : List (String × Jv)) (cmd : String)
    (hfind : findMcp (effectiveMcps fetch st.regFile) mcpId = some (jobj fsm))
    (hcmd : objGet fsm "command" = some (jstr cmd))
    (henv : collectMissingEnv (mcpEnvDecls (jobj fsm)) envVars = [])
    (hagents : objGet fsm "installed_agents" = none
        ∨ ∃ xs, objGet fsm "installed_agents" = some (jarr xs))
    (hcount : (agentsList fsm).count (jstr agentId) ≤ 1) :
    ((installEndpoint st true mcpId envVars agentId fetch now1).1
        = InstallResult.installed)
    ∧ ((installEndpoint (installEndpoint st true mcpId envVars agentId fetch
          now1).2 true mcpId envVars agentId fetch now2).1
        = InstallResult.installed)
    ∧ ((installEndpoint (installEndpoint st true mcpId envVars agentId fetch
          now1).2 true mcpId envVars agentId fetch now2).2.agentCfg
        = (installEndpoint st true mcpId envVars agentId fetch
            now1).2.agentCfg)
    ∧ (registryAgents (installEndpoint (installEndpoint st true mcpId envVars
          agentId fetch now1).2 true mcpId envVars agentId fetch
          now2).2.regFile mcpId
        = registryAgents (installEndpoint st true mcpId envVars agentId fetch
            now1).2.regFile mcpId)
    ∧ ((registryAgents (installEndpoint st true mcpId envVars agentId fetch
          now1).2.regFile mcpId).count (jstr agentId) = 1)
    ∧ (∀ fields ms,
        ensureMcpServersInConfig (readJson st.agentCfg) agentId = jobj fields →
        objGet fields "mcpServers" = some (jobj ms) → countKey ms mcpId ≤ 1 →
        ∃ ms', jget (addServerConfig st.agentCfg mcpId cmd
            (envVarsJv envVars) agentId) "mcpServers" = some (jobj ms')
          ∧ countKey ms' mcpId = 1) := by
  have honce := installEndpoint_success st mcpId agentId envVars fetch now1
    fsm cmd hfind hcmd henv
  set cfg1 := addServerToMcpConfig st.agentCfg mcpId cmd (envVarsJv envVars)
    agentId with hcfg1
  have hA : (installEndpoint st true mcpId envVars agentId fetch now1).1
      = InstallResult.installed := by rw [honce]
  have hF : ∀ fields ms,
      ensureMcpServersInConfig (readJson st.agentCfg) agentId = jobj fields →
      objGet fields "mcpServers" = some (jobj ms) → countKey ms mcpId ≤ 1 →
      ∃ ms', jget (addServerConfig st.agentCfg mcpId cmd
          (envVarsJv envVars) agentId) "mcpServers" = some (jobj ms')
        ∧ countKey ms' mcpId = 1 := by
    intro fields ms h1 h2 hc
    exact ⟨objSet ms mcpId (cmdEntry cmd (envVarsJv envVars)),
      addServerConfig_sets_entry st.agentCfg mcpId cmd _ agentId fields ms h1 h2,
      countKey_objSet ms mcpId _ hc⟩
  have hcfgidem : addServerToMcpConfig cfg1 mcpId cmd (envVarsJv envVars)
      agentId = cfg1 := by
    rw [hcfg1]
    show some (Except.ok (addServerConfig (some (Except.ok
        (addServerConfig st.agentCfg mcpId cmd (envVarsJv envVars) agentId)))
        mcpId cmd (envVarsJv envVars) agentId)) = _
    rw [addServerConfig_idem]
    rfl
  set L := (if jsIncludesStr (agentsList fsm) agentId = true
      then agentsList fsm else agentsList fsm ++ [jstr agentId]) with hLdef
  have hLcount : L.count (jstr agentId) = 1 :=
    count_push_agent (agentsList fsm) agentId hcount
  have hLinc : jsIncludesStr L agentId = true := by
    rw [hLdef]
    by_cases hin : jsIncludesStr (agentsList fsm) agentId = true
    · rw [if_pos hin]; exact hin
    · rw [if_neg hin]; simp [jsIncludesStr, List.any_append]
  obtain ⟨fs1', heq1, hags1, hother1, htr1, hfl1⟩ :=
    markInstalled_fields fsm agentId now1 hagents
  cases hf : fetchedCatalog fetch with
  | some v =>
      have hSV : ∀ R : FileState,
          (loadMcpRegistry fetch R).2 = saveMcpRegistry v := by
        intro R; simp [loadMcpRegistry, hf]
      have hload : loadMcpRegistrySync (saveMcpRegistry v)
          = effectiveMcps fetch st.regFile := by
        rw [loadSync_save_fetched fetch v hf,
          effectiveMcps_some fetch v st.regFile hf]
      have hfind0 : findMcp (loadMcpRegistrySync (saveMcpRegistry v)) mcpId
          = some (jobj fsm) := by rw [hload]; exact hfind
      have hany := (findMcp_facts _ _ _ hfind0).2.2
      set R1 := updateMcpInstallationStatus (saveMcpRegistry v) mcpId agentId
        true now1 with hR1def
      have honce' : installEndpoint st true mcpId envVars agentId fetch now1
          = (InstallResult.installed,
             { regFile := R1, agentCfg := cfg1 }) := by
        rw [honce, hSV st.regFile]
      have hra : ∀ nw, registryAgents (updateMcpInstallationStatus
          (saveMcpRegistry v) mcpId agentId true nw) mcpId = L := by
        intro nw
        obtain ⟨fsx, heqx, hagsx, _, _, _⟩ :=
          markInstalled_fields fsm agentId nw hagents
        rw [updateStatus_found _ _ _ _ _ hany]
        simp only [registryAgents, loadSync_save]
        rw [findMcp_updateMcpList _ _ _ _ _ hfind0, heqx, hLdef]
        simp [agentsList, hagsx]
      have hfind2 : findMcp (effectiveMcps fetch R1) mcpId
          = some (jobj fsm) := by
        rw [effectiveMcps_some fetch v R1 hf,
          ← effectiveMcps_some fetch v st.regFile hf]
        exact hfind
      have htwice := installEndpoint_success
        { regFile := R1, agentCfg := cfg1 } mcpId agentId envVars fetch now2
        fsm cmd hfind2 hcmd henv
      rw [hSV R1] at htwice
      refine ⟨hA, ?_, ?_, ?_, ?_, hF⟩
      · rw [honce', htwice]
      · rw [honce', htwice]
        exact hcfgidem
      · rw [honce', htwice]
        show registryAgents (updateMcpInstallationStatus (saveMcpRegistry v)
            mcpId agentId true now2) mcpId = registryAgents R1 mcpId
        rw [hra now2, hR1def, hra now1]
      · rw [honce']
        show (registryAgents R1 mcpId).count (jstr agentId) = 1
        rw [hR1def, hra now1, hLcount]
  | none =>
      have hNone : ∀ R : FileState, (loadMcpRegistry fetch R).2 = R := by
        intro R; simp [loadMcpRegistry, hf]
      have hfind0 : findMcp (loadMcpRegistrySync st.regFile) mcpId
          = some (jobj fsm) := by
        rw [← effectiveMcps_none fetch st.regFile hf]; exact hfind
      have hany := (findMcp_facts _ _ _ hfind0).2.2
      set mcps0 := loadMcpRegistrySync st.regFile with hmcps0
      set R1 := updateMcpInstallationStatus st.regFile mcpId agentId true now1
        with hR1def
      have honce' : installEndpoint st true mcpId envVars agentId fetch now1
          = (InstallResult.installed,
             { regFile := R1, agentCfg := cfg1 }) := by
        rw [honce, hNone st.regFile]
      have hR1 : R1 = saveMcpRegistry (jobj [("mcps",
          jarr (updateMcpList mcps0 mcpId agentId true now1))]) := by
        rw [hR1def]
        exact updateStatus_found _ _ _ _ _ hany
      have hsync1 : loadMcpRegistrySync R1
          = updateMcpList mcps0 mcpId agentId true now1 := by
        rw [hR1, loadSync_save]
      have hfindU1 : findMcp (updateMcpList mcps0 mcpId agentId true now1)
          mcpId = some (markInstalledRecord (jobj fsm) agentId now1) :=
        findMcp_updateMcpList _ _ _ _ _ hfind0
      have hfind2 : findMcp (effectiveMcps fetch R1) mcpId
          = some (jobj fs1') := by
        rw [effectiveMcps_none fetch R1 hf, hsync1, hfindU1, heq1]
      have hcmd2 : objGet fs1' "command" = some (jstr cmd) := by
        have h := command_markInstalled (jobj fsm) agentId now1
        rw [heq1] at h
        simp only [jget] at h
        rw [h]; exact hcmd
      have henv2 : collectMissingEnv (mcpEnvDecls (jobj fs1')) envVars = [] := by
        have h := mcpEnvDecls_markInstalled (jobj fsm) agentId now1
        rw [heq1] at h
        rw [h]; exact henv
      have htwice := installEndpoint_success
        { regFile := R1, agentCfg := cfg1 } mcpId agentId envVars fetch now2
        fs1' cmd hfind2 hcmd2 henv2
      rw [hNone R1] at htwice
      have hany2 : (loadMcpRegistrySync R1).any
          (fun m => idMatches m mcpId) = true := by
        rw [hsync1]
        exact (findMcp_facts _ _ _ hfindU1).2.2
      have hagl1 : agentsList fs1' = L := by
        simp [agentsList, hags1, hLdef]
      have hraonce : registryAgents R1 mcpId = L := by
        simp only [registryAgents, hsync1]
        rw [hfindU1, heq1]
        exact hagl1
      refine ⟨hA, ?_, ?_, ?_, ?_, hF⟩
      · rw [honce', htwice]
      · rw [honce', htwice]
        exact hcfgidem
      · rw [honce', htwice]
        show registryAgents (updateMcpInstallationStatus R1 mcpId agentId true
            now2) mcpId = registryAgents R1 mcpId
        rw [hraonce]
        have hags1L : objGet fs1' "installed_agents" = some (jarr L) := by
          rw [hLdef]; exact hags1
        have hfindU1' : findMcp (updateMcpList mcps0 mcpId agentId true now1)
            mcpId = some (jobj fs1') := by rw [hfindU1, heq1]
        obtain ⟨fs2', heq2, hags2, _, _, _⟩ :=
          markInstalled_fields fs1' agentId now2 (Or.inr ⟨L, hags1L⟩)
        rw [updateStatus_found _ _ _ _ _ hany2]
        simp only [registryAgents, loadSync_save]
        rw [hsync1, findMcp_updateMcpList _ _ _ _ _ hfindU1', heq2]
        simp only [agentsList, hags2, hags1L, hLinc, if_true]
      · rw [honce']
        show (registryAgents R1 mcpId).count (jstr agentId) = 1
        rw [hraonce, hLcount]

theorem install_twice_equals_once_witness :
    ((installEndpoint c5St true "p" none "agentX" (Except.error ()) "T1").1
        = InstallResult.installed)
    ∧ ((installEndpoint (installEndpoint c5St true "p" none "agentX"
          (Except.error ()) "T1").2 true "p" none "agentX" (Except.error ())
          "T2").2.agentCfg
        = (installEndpoint c5St true "p" none "agentX" (Except.error ())
            "T1").2.agentCfg)
    ∧ ((registryAgents (installEndpoint c5St true "p" none "agentX"
          (Except.error ()) "T1").2.regFile "p").count (jstr "agentX") = 1) :=
  have h := install_twice_equals_once c5St "p" "agentX" none
    (Except.error ()) "T1" "T2" c5Fsm "npx x" (by decide) (by decide)
    (by decide) (Or.inl (by decide)) (by decide)
  ⟨h.1, h.2.2.1, h.2.2.2.2.1⟩

end Mcpkit
